import Mathlib

/-!
Verification development for the `log-analyzer` repository: a shallow
embedding, in Lean 4, of the Go code under `internal/` and `pkg/models/`,
together with theorems settling the frozen claims about it.

Conventions of the embedding:
* Go strings are Lean `String`s; rune-level operations work on `String.data`
  (`List Char`).  SHA-256 input bytes are the UTF-8 encoding of the string.
* Go `int` counters that are only ever incremented are modelled as `Nat`;
  `time.Duration` (int64 nanoseconds) is modelled as `Int` with Go's
  truncating division.
* Go maps are modelled as insertion-ordered association lists.  Where Go
  iterates a map, its iteration order is unspecified; wherever that order
  can matter the function takes the order as an explicit parameter,
  otherwise the insertion order of the association list is used and the
  choice is noted at the definition.
* Fallible Go functions returning `(T, error)` are modelled with `Option` /
  `Except`; a Go runtime panic is a distinguished constructor.
-/

namespace LogAnalyzer

/-! ## Association-list maps (model of Go `map` reads and writes) -/

/-- Lookup in an insertion-ordered association list; models `m[k]` (comma-ok
form) for a Go map. -/
def findMap {α : Type} (m : List (String × α)) (k : String) : Option α :=
  match m with
  | [] => none
  | (k', v) :: rest => if k' = k then some v else findMap rest k

/-- Write `m[k] = v`: replace the existing binding in place, or append a new
binding at the end (insertion order). -/
def setMap {α : Type} (m : List (String × α)) (k : String) (v : α) :
    List (String × α) :=
  match m with
  | [] => [(k, v)]
  | (k', v') :: rest =>
      if k' = k then (k, v) :: rest else (k', v') :: setMap rest k v

/-- Model of `m[k]++` on a Go `map[string]int` (missing key counts as 0). -/
def incrKey (m : List (String × Nat)) (k : String) : List (String × Nat) :=
  match m with
  | [] => [(k, 1)]
  | (k', c) :: rest =>
      if k' = k then (k, c + 1) :: rest else (k', c) :: incrKey rest k

/-- Sum of the values of a `map[string]int`. -/
def sumVals (m : List (String × Nat)) : Nat :=
  (m.map Prod.snd).sum

/-! ## Insertion sort (model of Go `sort.Slice`)

Go's `sort.Slice` sorts by a strict comparator `less`; for the slice sizes
arising here it runs insertion sort, which keeps the pre-sort order of
elements that compare equal.  We model it by insertion sort with the
reflexive comparator `le a b := ¬ less b a`. -/

def insertLe {α : Type} (le : α → α → Bool) (a : α) : List α → List α
  | [] => [a]
  | b :: l => if le a b then a :: b :: l else b :: insertLe le a l

def sortLe {α : Type} (le : α → α → Bool) : List α → List α
  | [] => []
  | a :: l => insertLe le a (sortLe le l)

/-! ## Character classes and UTF-8

Character classes follow Go's `regexp` ASCII classes: `\d` is `[0-9]`,
`\s` is `[\t\n\f\r ]`, `\w` is `[0-9A-Za-z_]`.  `strings.ToLower` is
modelled by ASCII lowering (all strings the analyzer manipulates are ASCII
or CJK; CJK is unaffected by case mapping). -/

def isGoSpace (c : Char) : Bool :=
  c = ' ' || c = '\t' || c = '\n' || c = Char.ofNat 12 || c = '\r'

/-- Inclusive character range test, the building block of the character
classes below. -/
def between (lo hi c : Char) : Bool :=
  lo ≤ c && c ≤ hi

def isWordChar (c : Char) : Bool :=
  c.isDigit || between 'a' 'z' c || between 'A' 'Z' c || c = '_'

def lowerAscii (c : Char) : Char :=
  if between 'A' 'Z' c then Char.ofNat (c.toNat + 32) else c

def strToLower (s : String) : String :=
  String.mk (s.data.map lowerAscii)

def isHexDigitCI (c : Char) : Bool :=
  c.isDigit || between 'a' 'f' c || between 'A' 'F' c

def isLowerHex (c : Char) : Bool :=
  c.isDigit || between 'a' 'f' c

def isLowerAlnum (c : Char) : Bool :=
  c.isDigit || between 'a' 'z' c

/-- UTF-8 encoding of one scalar value, as byte values. -/
def utf8Bytes (c : Char) : List Nat :=
  let n := c.toNat
  if n < 128 then [n]
  else if n < 2048 then [192 + n / 64, 128 + n % 64]
  else if n < 65536 then [224 + n / 4096, 128 + n / 64 % 64, 128 + n % 64]
  else [240 + n / 262144, 128 + n / 4096 % 64, 128 + n / 64 % 64, 128 + n % 64]

/-- The UTF-8 bytes of a string; model of Go `[]byte(s)`. -/
def strBytes (s : String) : List Nat :=
  s.data.flatMap utf8Bytes

/-! ## SHA-256 over byte lists (model of `crypto/sha256.Sum256`) -/

namespace Sha256

def M32 : Nat := 4294967296

def rotr (x n : Nat) : Nat :=
  ((x >>> n) ||| (x <<< (32 - n))) % M32

def shr (x n : Nat) : Nat := x >>> n

def add32 (a b : Nat) : Nat := (a + b) % M32

def K : List Nat :=
  [1116352408, 1899447441, 3049323471, 3921009573, 961987163,
   1508970993, 2453635748, 2870763221, 3624381080, 310598401,
   607225278, 1426881987, 1925078388, 2162078206, 2614888103,
   3248222580, 3835390401, 4022224774, 264347078, 604807628,
   770255983, 1249150122, 1555081692, 1996064986, 2554220882,
   2821834349, 2952996808, 3210313671, 3336571891, 3584528711,
   113926993, 338241895, 666307205, 773529912, 1294757372,
   1396182291, 1695183700, 1986661051, 2177026350, 2456956037,
   2730485921, 2820302411, 3259730800, 3345764771, 3516065817,
   3600352804, 4094571909, 275423344, 430227734, 506948616,
   659060556, 883997877, 958139571, 1322822218, 1537002063,
   1747873779, 1955562222, 2024104815, 2227730452, 2361852424,
   2428436474, 2756734187, 3204031479, 3329325298]

structure St where
  a : Nat
  b : Nat
  c : Nat
  d : Nat
  e : Nat
  f : Nat
  g : Nat
  h : Nat

def initSt : St :=
  ⟨1779033703, 3144134277, 1013904242, 2773480762,
   1359893119, 2600822924, 528734635, 1541459225⟩

/-- Length padding: message ++ 0x80 ++ zeros ++ 64-bit big-endian bit length. -/
def pad (msg : List Nat) : List Nat :=
  let L := msg.length
  let zeros := (55 + 64 - L % 64) % 64
  let bits := 8 * L
  msg ++ [128] ++ List.replicate zeros 0 ++
    [bits / 2 ^ 56 % 256, bits / 2 ^ 48 % 256, bits / 2 ^ 40 % 256,
     bits / 2 ^ 32 % 256, bits / 2 ^ 24 % 256, bits / 2 ^ 16 % 256,
     bits / 2 ^ 8 % 256, bits % 256]

/-- Group a byte list into 32-bit big-endian words. -/
def toWords : List Nat → List Nat
  | b0 :: b1 :: b2 :: b3 :: rest =>
      (b0 * 2 ^ 24 + b1 * 2 ^ 16 + b2 * 2 ^ 8 + b3) :: toWords rest
  | _ => []

def smallSigma0 (x : Nat) : Nat := rotr x 7 ^^^ rotr x 18 ^^^ shr x 3

def smallSigma1 (x : Nat) : Nat := rotr x 17 ^^^ rotr x 19 ^^^ shr x 10

def bigSigma0 (x : Nat) : Nat := rotr x 2 ^^^ rotr x 13 ^^^ rotr x 22

def bigSigma1 (x : Nat) : Nat := rotr x 6 ^^^ rotr x 11 ^^^ rotr x 25

/-- Extend 16 message words to 64 (appends `n` further words). -/
def extend (ws : List Nat) : Nat → List Nat
  | 0 => ws
  | n + 1 =>
      let i := ws.length
      let w := (smallSigma1 (ws.getD (i - 2) 0) + ws.getD (i - 7) 0 +
                smallSigma0 (ws.getD (i - 15) 0) + ws.getD (i - 16) 0) % M32
      extend (ws ++ [w]) n

def round (st : St) (kw : Nat × Nat) : St :=
  let t1 := (st.h + bigSigma1 st.e +
             ((st.e &&& st.f) ^^^ ((st.e ^^^ 4294967295) &&& st.g))
             + kw.1 + kw.2) % M32
  let t2 := (bigSigma0 st.a +
             ((st.a &&& st.b) ^^^ (st.a &&& st.c) ^^^ (st.b &&& st.c))) % M32
  ⟨(t1 + t2) % M32, st.a, st.b, st.c, (st.d + t1) % M32, st.e, st.f, st.g⟩

def compress (h : St) (block : List Nat) : St :=
  let ws := extend (toWords block) 48
  let st := (K.zip ws).foldl round h
  ⟨add32 h.a st.a, add32 h.b st.b, add32 h.c st.c, add32 h.d st.d,
   add32 h.e st.e, add32 h.f st.f, add32 h.g st.g, add32 h.h st.h⟩

/-- Split into 64-byte blocks; fuel makes the recursion structural. -/
def chunksF : Nat → List Nat → List (List Nat)
  | 0, _ => []
  | _ + 1, [] => []
  | fuel + 1, l => l.take 64 :: chunksF fuel (l.drop 64)

def wordBytes (w : Nat) : List Nat :=
  [w / 2 ^ 24 % 256, w / 2 ^ 16 % 256, w / 2 ^ 8 % 256, w % 256]

/-- SHA-256 digest (32 bytes) of a byte list. -/
def digest (msg : List Nat) : List Nat :=
  let padded := pad msg
  let final := (chunksF padded.length padded).foldl compress initSt
  wordBytes final.a ++ wordBytes final.b ++ wordBytes final.c ++
    wordBytes final.d ++ wordBytes final.e ++ wordBytes final.f ++
    wordBytes final.g ++ wordBytes final.h

end Sha256

def hexDigitChar (n : Nat) : Char :=
  if n < 10 then Char.ofNat (48 + n) else Char.ofNat (87 + n)

/-- Lowercase hex of a byte list; model of Go `fmt.Sprintf("%x", hash)`. -/
def bytesToHex (bs : List Nat) : String :=
  String.mk (bs.flatMap (fun b => [hexDigitChar (b / 16), hexDigitChar (b % 16)]))

/-- Model of `sha256.Sum256([]byte(s))` rendered as lowercase hex. -/
def sha256Hex (s : String) : String :=
  bytesToHex (Sha256.digest (strBytes s))

/-- Model of `strings.Contains`. -/
def listContains (needle : List Char) : List Char → Bool
  | [] => needle.isEmpty
  | c :: rest => needle.isPrefixOf (c :: rest) || listContains needle rest

def strContains (s sub : String) : Bool :=
  listContains sub.data s.data

/-- Lexicographic strict order on character lists; on the ASCII hex strings
compared here it coincides with Go's `<` on strings (bytewise). -/
def lexLtChars : List Char → List Char → Bool
  | _, [] => false
  | [], _ => true
  | x :: xs, y :: ys =>
      if x < y then true else if y < x then false else lexLtChars xs ys

def strLtChars (a b : String) : Bool :=
  lexLtChars a.data b.data

/-- Model of `strings.HasPrefix`. -/
def strHasPre (s pre : String) : Bool :=
  pre.data.isPrefixOf s.data

/-- Model of `strings.HasSuffix`. -/
def strHasSuf (s suf : String) : Bool :=
  suf.data.isSuffixOf s.data

/-- Model of `strings.TrimSuffix`. -/
def strTrimSuf (s suf : String) : String :=
  if strHasSuf s suf then String.mk (s.data.take (s.data.length - suf.data.length))
  else s

/-- Model of `strings.TrimPrefix`. -/
def strTrimPre (s pre : String) : String :=
  if strHasPre s pre then String.mk (s.data.drop pre.data.length) else s

/-- Model of `strings.TrimSpace` (restricted to the ASCII space class; the
strings reaching it here contain no exotic Unicode whitespace). -/
def trimSpace (l : List Char) : List Char :=
  ((l.dropWhile isGoSpace).reverse.dropWhile isGoSpace).reverse

/-- Model of `strings.ReplaceAll s old new` for a non-empty `old`; fuel is
the length of the subject, consumed at least one unit per step.  (Go's
behaviour for an empty `old` — interleaving `new` — is never exercised:
the call sites pass non-empty literals.) -/
def replaceAllF (old new : List Char) : Nat → List Char → List Char
  | 0, l => l
  | _ + 1, [] => []
  | fuel + 1, c :: rest =>
      if !old.isEmpty && old.isPrefixOf (c :: rest) then
        new ++ replaceAllF old new fuel ((c :: rest).drop old.length)
      else c :: replaceAllF old new fuel rest

def strReplaceAll (s old new : String) : String :=
  String.mk (replaceAllF old.data new.data s.data.length s.data)

/-! ## Time (model of the `time.Time` values the analyzer reads) -/

/-- A Go `time.Time` as the analyzer observes it: the absolute instant in
seconds (`unix`, for `Before`/`After` comparisons and arithmetic) and the
wall-clock hour of day in the value's own location (`hour`, the result of
`Hour()`). -/
structure GoTime where
  unix : Int
  hour : Nat
deriving DecidableEq

/-- The zero `time.Time` (January 1 of year 1, UTC). -/
def goZeroTime : GoTime := ⟨-62135596800, 0⟩

/-- Model of `time.Time.IsZero`. -/
def GoTime.IsZero (t : GoTime) : Bool := t = goZeroTime

/-- Model of `t.Add(1 * time.Hour)`. -/
def GoTime.addHour (t : GoTime) : GoTime := ⟨t.unix + 3600, (t.hour + 1) % 24⟩

/-! ## Data model (`pkg/models`) -/

/-- Model of `models.ParsedLog`. -/
structure ParsedLog where
  Timestamp : GoTime
  Caller : String
  Content : String
  Level : String
  Span : String
  Trace : String
  ServiceName : String
deriving DecidableEq

/-- Model of `models.PeakWindow`.  Go stores `Density` as a `float64`; the model uses
exact rationals.  (As proved below the constructor is in fact unreachable,
so no float rounding is ever observable.) -/
structure PeakWindow where
  Start : GoTime
  End : GoTime
  Count : Nat
  Density : Rat
deriving DecidableEq

/-- Model of `models.ErrorGroup`. `TimeDistribution` is the insertion-ordered
association list modelling the Go `map[string]int`. -/
structure ErrorGroup where
  Fingerprint : String
  NormalizedContent : String
  ServiceName : String
  CallerFile : String
  TotalCount : Nat
  Samples : List ParsedLog
  TimeDistribution : List (String × Nat)
  PeakWindow : Option PeakWindow
deriving DecidableEq

/-! ## Normalizer (`internal/normalizer/normalizer.go`) -/

namespace Normalizer

/-- Model of `normalizer.NormalizationConfig`.  `ReplaceLiterals` is a Go map; the
default (and only) configuration leaves it empty, so its unspecified
iteration order is modelled by list order. -/
structure NormalizationConfig where
  ReplaceLiterals : List (String × String)
  MinSamplesPerGroup : Nat
  MaxSamplesPerGroup : Nat

/-- Model of `normalizer.DefaultNormalizationConfig()`. -/
def DefaultNormalizationConfig : NormalizationConfig := ⟨[], 3, 5⟩

/-- Try to consume exactly `n` case-insensitive hex digits. -/
def takeHexN : Nat → List Char → Option (List Char)
  | 0, l => some l
  | _ + 1, [] => none
  | n + 1, c :: rest => if isHexDigitCI c then takeHexN n rest else none

def expectDash : List Char → Option (List Char)
  | '-' :: rest => some rest
  | _ => none

/-- Prefix match for the first alternative of the UUID regex
`[0-9a-f]{8}-[0-9a-f]{4}-[0-9a-f]{4}-[0-9a-f]{4}-[0-9a-f]{12}` (with `(?i)`);
returns the remainder after the match. -/
def tryUuidDashed (l : List Char) : Option (List Char) :=
  match takeHexN 8 l with
  | none => none
  | some l =>
  match expectDash l with
  | none => none
  | some l =>
  match takeHexN 4 l with
  | none => none
  | some l =>
  match expectDash l with
  | none => none
  | some l =>
  match takeHexN 4 l with
  | none => none
  | some l =>
  match expectDash l with
  | none => none
  | some l =>
  match takeHexN 4 l with
  | none => none
  | some l =>
  match expectDash l with
  | none => none
  | some l =>
  takeHexN 12 l

/-- Prefix match for the second alternative `\b[0-9a-f]{32}\b` (the leading
boundary is checked by the caller); checks the trailing boundary. -/
def tryHex32 (l : List Char) : Option (List Char) :=
  (takeHexN 32 l).bind fun after =>
    match after with
    | [] => some []
    | d :: _ => if isWordChar d then none else some after

/-- Scanner for `uuidRegex.ReplaceAllString(s, "[UUID]")`: leftmost,
non-overlapping matches, first alternative preferred (Go `regexp` is
leftmost-first).  `prev` is the character before the current position, for
the `\b` of the second alternative; fuel ≥ input length suffices because
every step consumes at least one character. -/
def uuidScan : Nat → Option Char → List Char → List Char
  | 0, _, l => l
  | _ + 1, _, [] => []
  | fuel + 1, prev, c :: rest =>
      match tryUuidDashed (c :: rest) with
      | some after => "[UUID]".data ++ uuidScan fuel (some 'f') after
      | none =>
        let bOK := match prev with | none => true | some p => !isWordChar p
        match (if bOK then tryHex32 (c :: rest) else none) with
        | some after => "[UUID]".data ++ uuidScan fuel (some 'f') after
        | none => c :: uuidScan fuel (some c) rest

/-- Scanner for `numRegex.ReplaceAllString(s, "[NUM]")` where the regex is
`\b\d+\b`: a maximal digit run with word boundaries on both sides is
replaced; otherwise the scan advances one character (positions inside a
digit run can never start a match, since their previous character is a
digit). -/
def numScan : Nat → Option Char → List Char → List Char
  | 0, _, l => l
  | _ + 1, _, [] => []
  | fuel + 1, prev, c :: rest =>
      let bOK := match prev with | none => true | some p => !isWordChar p
      if c.isDigit && bOK then
        let after := List.dropWhile Char.isDigit (c :: rest)
        let bAfter := match after with | [] => true | d :: _ => !isWordChar d
        if bAfter then "[NUM]".data ++ numScan fuel (some c) after
        else c :: numScan fuel (some c) rest
      else c :: numScan fuel (some c) rest

/-- Scanner for `spaceRegex.ReplaceAllString(s, " ")` with `\s+`: each
maximal whitespace run becomes a single space. -/
def collapseSpaces : Bool → List Char → List Char
  | _, [] => []
  | prevSp, c :: rest =>
      if isGoSpace c then
        if prevSp then collapseSpaces true rest
        else ' ' :: collapseSpaces true rest
      else c :: collapseSpaces false rest

/-- Model of `normalizer.normalizeContent`: lowercase, mask UUIDs, mask digit runs,
apply the configured literal replacements, collapse whitespace, trim. -/
def normalizeContent (content : String) (config : NormalizationConfig) :
    String :=
  let lowered := (strToLower content).data
  let masked := uuidScan lowered.length none lowered
  let masked := numScan masked.length none masked
  let replaced := config.ReplaceLiterals.foldl
    (fun acc p => (strReplaceAll (String.mk acc) (strToLower p.1) p.2).data)
    masked
  String.mk (trimSpace (collapseSpaces false replaced))

/-- Model of `normalizer.calculateFingerprint`. -/
def calculateFingerprint (normalizedContent serviceName caller : String) :
    String :=
  sha256Hex (normalizedContent ++ "|" ++ serviceName ++ "|" ++ caller)

/-- The hour key `fmt.Sprintf("%02d:00", hour)`. -/
def hourKey (h : Nat) : String :=
  (if h < 10 then "0" ++ Nat.repr h else Nat.repr h) ++ ":00"

/-- A fresh `&models.ErrorGroup{...}` as created on first sight of a
fingerprint. -/
def freshGroup (fp nc sn caller : String) : ErrorGroup :=
  ⟨fp, nc, sn, caller, 0, [], [], none⟩

/-- The per-record mutation of a group: `TotalCount++`, sample retention up
to `MaxSamplesPerGroup`, and the hourly-distribution increment. -/
def applyLog (config : NormalizationConfig) (g : ErrorGroup)
    (log : ParsedLog) : ErrorGroup :=
  { g with
    TotalCount := g.TotalCount + 1
    Samples :=
      if g.Samples.length < config.MaxSamplesPerGroup then g.Samples ++ [log]
      else g.Samples
    TimeDistribution :=
      incrKey g.TimeDistribution (hourKey log.Timestamp.hour) }

/-- One iteration of the grouping loop of `NormalizeWithConfig`. -/
def stepGroup (config : NormalizationConfig)
    (m : List (String × ErrorGroup)) (log : ParsedLog) :
    List (String × ErrorGroup) :=
  let nc := normalizeContent log.Content config
  let fp := calculateFingerprint nc log.ServiceName log.Caller
  let g0 := (findMap m fp).getD (freshGroup fp nc log.ServiceName log.Caller)
  setMap m fp (applyLog config g0 log)

/-- The grouping loop (`groupMap` as an insertion-ordered association
list). -/
def buildGroups (logs : List ParsedLog) (config : NormalizationConfig) :
    List (String × ErrorGroup) :=
  logs.foldl (stepGroup config) []

/-- The maximum-count scan of `calculatePeakWindow` (`for hour, count :=
range distribution`; the Go map order is unspecified — the model iterates
the association list, and the results proved below hold for every
order). -/
def findPeak (dist : List (String × Nat)) : String × Nat :=
  dist.foldl (fun acc p => if p.2 > acc.2 then p else acc) ("", 0)

/-- Model of Go `time.Parse("2006-01-02T15:00:00Z", value)`: with that
layout the parser demands a 4-digit year, dashes, a 2-digit month and day,
a literal `T`, a 2-digit hour and the literal tail `:00:00Z`; anything else
(in particular the 5-character hour keys `"HH:00"`) fails. -/
def parseFullLayout (s : String) : Option GoTime :=
  let cs := s.data
  let g := fun (i : Nat) => cs.getD i '?'
  if cs.length = 20 && (g 0).isDigit && (g 1).isDigit && (g 2).isDigit &&
     (g 3).isDigit && g 4 = '-' && (g 5).isDigit && (g 6).isDigit &&
     g 7 = '-' && (g 8).isDigit && (g 9).isDigit && g 10 = 'T' &&
     (g 11).isDigit && (g 12).isDigit && g 13 = ':' && g 14 = '0' &&
     g 15 = '0' && g 16 = ':' && g 17 = '0' && g 18 = '0' && g 19 = 'Z'
  then
    let num := fun (i : Nat) => (g i).toNat - 48
    let y : Int := Int.ofNat (num 0 * 1000 + num 1 * 100 + num 2 * 10 + num 3)
    let mo := num 5 * 10 + num 6
    let da := num 8 * 10 + num 9
    let hh := num 11 * 10 + num 12
    if 1 ≤ mo && mo ≤ 12 && 1 ≤ da && da ≤ 31 && hh < 24 then
      -- days-from-civil (valid for the positive years that can appear here)
      let yy : Int := if mo ≤ 2 then y - 1 else y
      let era : Int := yy / 400
      let yoe : Int := yy - era * 400
      let mp : Int := Int.ofNat ((mo + 9) % 12)
      let doy : Int := (153 * mp + 2) / 5 + Int.ofNat da - 1
      let doe : Int := yoe * 365 + yoe / 4 - yoe / 100 + doy
      let days : Int := era * 146097 + doe - 719468
      some ⟨days * 86400 + Int.ofNat (hh * 3600), hh⟩
    else none
  else none

/-- Model of `normalizer.calculatePeakWindow`: pick the hour with the maximal count,
parse it back with the full date layout, and build the window.  (The parse
step is the one the source performs; it fails on every `"HH:00"` key.) -/
def calculatePeakWindow (dist : List (String × Nat)) :
    Option PeakWindow :=
  if dist.isEmpty then none
  else
    let pk := findPeak dist
    if pk.1 = "" then none
    else
      match parseFullLayout pk.1 with
      | none => none
      | some t => some ⟨t, t.addHour, pk.2, (pk.2 : Rat) / 60⟩

/-- Comparator of the sample sort `sort.Slice(..., Before)`, as the
reflexive relation of the insertion-sort model. -/
def sampleLe (a b : ParsedLog) : Bool :=
  decide (a.Timestamp.unix ≤ b.Timestamp.unix)

/-- Per-group finalization: sort samples by timestamp, truncate to
`MinSamplesPerGroup` when longer, and compute the peak window. -/
def finalizeGroup (config : NormalizationConfig) (g : ErrorGroup) :
    ErrorGroup :=
  let sorted := sortLe sampleLe g.Samples
  { g with
    Samples :=
      if sorted.length > config.MinSamplesPerGroup then
        sorted.take config.MinSamplesPerGroup
      else sorted
    PeakWindow := calculatePeakWindow g.TimeDistribution }

/-- Comparator of the output sort `sort.Slice` with
`TotalCount[i] > TotalCount[j]` (descending), as the reflexive relation of
the insertion-sort model; insertion sort keeps the pre-sort order of
equal-count groups, as Go's insertion sort does on the small slices
involved. -/
def countLe (a b : ErrorGroup) : Bool :=
  decide (b.TotalCount ≤ a.TotalCount)

/-- Model of `normalizer.NormalizeWithConfig`.  The conversion of `groupMap` to a
slice iterates the Go map in unspecified order; the model uses the
insertion order of the association list. -/
def NormalizeWithConfig (logs : List ParsedLog)
    (config : NormalizationConfig) : List ErrorGroup :=
  sortLe countLe
    ((buildGroups logs config).map (fun p => finalizeGroup config p.2))

/-- Model of `normalizer.Normalize` (the pipeline entry point). -/
def Normalize (logs : List ParsedLog) : List ErrorGroup :=
  NormalizeWithConfig logs DefaultNormalizationConfig

end Normalizer

/-! ## Known-issue registry (`internal/config/known_issues.go`) -/

namespace KnownIssues

/-- Model of `config.KnownIssue`, with the pattern kept as its `|`-split alternatives
(every registered pattern is a disjunction of literals, so the compiled
case-insensitive regex `(?i)(p₁|p₂|…)` matches a string exactly when some
alternative is a case-insensitive substring of it). -/
structure KnownIssue where
  ID : String
  Name : String
  Category : String
  Severity : String
  Patterns : List String
  Services : List String
deriving DecidableEq

/-- The ten issues of `initializePredefinedIssues`, in registration order. -/
def predefinedIssues : List KnownIssue :=
  [⟨"ISSUE-001", "索引不匹配錯誤", "logic", "high",
    ["mismatch index", "index out of range"],
    ["pp-slot-api", "pp-slot-replay"]⟩,
   ⟨"ISSUE-002", "JSON 解析錯誤", "parsing", "high",
    ["unexpected end of json input", "invalid json", "unmarshal error"],
    ["pp-slot-api", "pp-slot-session"]⟩,
   ⟨"ISSUE-003", "遊戲點數不足", "business_logic", "medium",
    ["insufficient points", "balance not enough", "insufficient funds"],
    ["pp-slot-api"]⟩,
   ⟨"ISSUE-004", "會話密鑰為空", "authentication", "high",
    ["empty mgckey", "invalid mgckey", "mgckey not found"],
    ["pp-slot-api", "pp-slot-session"]⟩,
   ⟨"ISSUE-005", "Redis 快取取得失敗", "infrastructure", "high",
    ["redis message is nil", "redis connection refused", "redis timeout"],
    ["pp-slot-api", "pp-slot-index"]⟩,
   ⟨"ISSUE-006", "玩家記錄未找到", "data", "medium",
    ["player not found", "account not found", "no such account"],
    ["pp-slot-api", "pp-slot-session"]⟩,
   ⟨"ISSUE-007", "遊戲配置缺失", "configuration", "medium",
    ["game config does not exist", "game not found", "invalid game id"],
    ["pp-slot-api"]⟩,
   ⟨"ISSUE-008", "帳戶被鎖定", "security", "high",
    ["account is locked", "account suspended", "login blocked"],
    ["pp-slot-session"]⟩,
   ⟨"ISSUE-009", "不支援的遊戲類型組合", "business_logic", "low",
    ["does not support spin type", "unsupported game mode",
     "invalid configuration"],
    ["pp-slot-api"]⟩,
   ⟨"ISSUE-010", "錢包操作失敗", "payment", "high",
    ["wallet fail", "wallet error", "transaction failed",
     "insufficient balance"],
    ["pp-slot-api"]⟩]

/-- Model of `compiledRegex.MatchString(content)` for the compiled disjunction of
literal alternatives with the `(?i)` flag: case-insensitive substring
search for some alternative. -/
def regexMatches (patterns : List String) (content : String) : Bool :=
  patterns.any fun p => strContains (strToLower content) (strToLower p)

/-- The per-issue test of the `MatchContentAndService` loop body:
the compiled regex matches the content (the `compiledRegex != nil` guard is
always true for the registered issues, whose patterns all compile) and
either no service filter is configured or some configured service is a
substring of the record's service — or is the wildcard. -/
def issueMatches (issue : KnownIssue) (content serviceName : String) :
    Bool :=
  regexMatches issue.Patterns content &&
    (issue.Services.isEmpty ||
     issue.Services.any fun svc => strContains serviceName svc || svc = "*")

/-- Model of `MatchContentAndService`, parametrised by the iteration order of the
registry's Go map `r.issues` (`for _, issue := range r.issues`): the order
is unspecified, any permutation of the registered issues is admissible. -/
def MatchContentAndService (order : List KnownIssue)
    (content serviceName : String) : Option KnownIssue :=
  order.find? fun issue => issueMatches issue content serviceName

end KnownIssues

/-! ## Fetcher (`internal/fetcher/fetcher.go`) -/

namespace Fetcher

/-- The fixed sub-window size, 30 minutes in nanoseconds
(`time.ParseDuration("30m")`). -/
def windowNs : Int := 1800000000000

/-- Model of `numWindows := int(duration / windowDuration); if numWindows == 0 the
loop still runs once`.  Go division of `time.Duration` truncates toward
zero. -/
def numWindows (duration : Int) : Int :=
  let n := Int.tdiv duration windowNs
  if n = 0 then 1 else n

/-- The sub-windows issued by `FetchWithTimeWindows`: window `i` spans
`[endTime − (i+1)·W, endTime − i·W]`. -/
def fetchWindows (duration endTime : Int) : List (Int × Int) :=
  (List.range (numWindows duration).toNat).map fun i =>
    (endTime - (Int.ofNat i + 1) * windowNs, endTime - Int.ofNat i * windowNs)

/-- Outcome of one HTTP search request (one window × one index), as the
fetcher distinguishes them: connection error, non-200 status, response
decode error, or a parsed hit list. -/
inductive HTTPOutcome where
  | connErr
  | non200 (code : Nat)
  | decodeErr
  | ok (hits : List String)
deriving DecidableEq

/-- An outcome that is skipped by the fetcher (connection error, non-200
status, decode error). -/
def isFail : HTTPOutcome → Bool
  | HTTPOutcome.ok _ => false
  | _ => true

/-- Model of `fetchFromWindow`: every per-index failure is logged and skipped
(`continue`); the hits of successful indices are concatenated.  The only
`error` returns in the source are for request marshalling/creation, which
cannot fail for the values built here, so the model always succeeds. -/
def fetchFromWindow (outcome : String → HTTPOutcome)
    (indices : List String) : Except String (List String) :=
  Except.ok (indices.foldl
    (fun acc idx =>
      match outcome idx with
      | HTTPOutcome.ok hits => acc ++ hits
      | _ => acc)
    [])

/-- Model of `FetchWithTimeWindows` after the duration has parsed: iterate the
windows, skip a window whose fetch errored (`continue`), concatenate the
rest, and return with a nil error. -/
def FetchWithTimeWindows (env : Nat → String → HTTPOutcome)
    (indices : List String) (duration endTime : Int) :
    Except String (List String) :=
  Except.ok ((List.range (numWindows duration).toNat).foldl
    (fun acc i =>
      match fetchFromWindow (env i) indices with
      | Except.ok logs => acc ++ logs
      | Except.error _ => acc)
    [])

end Fetcher

/-! ## Dynamic values and the raw-document model (`pkg/models`) -/

/-- A Go `interface{}` value as stored in the auxiliary maps of a raw
document (`host`, `agent`, `log`). -/
inductive GoVal where
  | str (s : String)
  | num (n : Int)
  | obj (fields : List (String × GoVal))
  | null

/-- Model of `models.FieldsData`. -/
structure FieldsData where
  ServiceName : String

/-- Model of `models.EventData`. -/
structure EventData where
  Original : String

/-- Model of `models.OpenSearchSource` (the fields the analyzer reads; a nil Go map
reads like an empty one). -/
structure OpenSearchSource where
  Event : EventData
  Message : String
  Fields : FieldsData
  Agent : List (String × GoVal)
  Log : List (String × GoVal)
  Host : List (String × GoVal)

/-- Model of `models.RawLog`. -/
structure RawLog where
  Index : String
  ID : String
  Source : OpenSearchSource
  Timestamp : GoTime

/-! ## Preprocessor (`internal/preprocessor/`) -/

namespace Preprocessor

/-- Character class `[a-zA-Z0-9-_]` of the service-name patterns. -/
def isW1 (c : Char) : Bool :=
  c.isDigit || between 'a' 'z' c || between 'A' 'Z' c || c = '-' || c = '_'

def isAlnumCI (c : Char) : Bool :=
  c.isDigit || between 'a' 'z' c || between 'A' 'Z' c

/-- Model of `cleanServiceName`: lowercase, underscores to hyphens, keep only
`[a-z0-9-]`, trim hyphens, collapse hyphen runs. -/
def collapseDashes : Bool → List Char → List Char
  | _, [] => []
  | prevD, c :: rest =>
      if c = '-' then
        if prevD then collapseDashes true rest
        else '-' :: collapseDashes true rest
      else c :: collapseDashes false rest

def cleanServiceName (serviceName : String) : String :=
  let lowered := (strToLower serviceName).data
  let hyphened := lowered.map fun c => if c = '_' then '-' else c
  let filtered := hyphened.filter fun c => isLowerAlnum c || c = '-'
  let trimmed :=
    ((filtered.dropWhile (fun c => c = '-')).reverse.dropWhile
      (fun c => c = '-')).reverse
  String.mk (collapseDashes false trimmed)

/-- Model of `normalizeServiceName`: strip the first matching environment prefix,
then clean. -/
def normalizeServiceName (serviceName : String) : String :=
  let prefixes := ["lc-jade-prod_", "lc-jade-staging_", "lc-jade-dev_",
    "prod_", "staging_", "dev_"]
  let normalized :=
    match prefixes.find? (fun p => strHasPre serviceName p) with
    | some p => strTrimPre serviceName p
    | none => serviceName
  cleanServiceName normalized

/-- Model of `isValidServiceName`: 2–100 characters, lowercase-alphanumeric first and
last character, and not one of the infrastructure labels. -/
def isValidServiceName (serviceName : String) : Bool :=
  let cs := serviceName.data
  2 ≤ cs.length && cs.length ≤ 100 &&
    isLowerAlnum (cs.getD 0 '?') &&
    isLowerAlnum (cs.getLastD '?') &&
    !(["filebeat", "logstash", "fluentd", "unknown", "default", "system",
       "kernel"].contains serviceName)

/-- Group 1 of pattern `([a-zA-Z0-9-_]+)(?:-[a-f0-9]{8,10}-[a-z0-9]{5})?$`.
Every character a match can consume lies in `[a-zA-Z0-9-_]` and the match
must reach the end of the subject, so the leftmost match starts right after
the last character outside that class; the greedy group then swallows the
whole remaining suffix (the optional pod-suffix branch matches empty
first). -/
def allW1Suffix (l : List Char) : List Char :=
  l.foldl (fun acc c => if isW1 c then acc ++ [c] else []) []

def p1Group1 (s : String) : Option String :=
  let t := allW1Suffix s.data
  if t.isEmpty then none else some (String.mk t)

/-- Group 1 of pattern `^(?:lc-jade-prod_)?([a-zA-Z0-9-_]+)`: prefer taking
the prefix; if no class character follows it, backtrack to the bare run
from the start. -/
def p2Group1 (s : String) : Option String :=
  let bare := s.data.takeWhile isW1
  if strHasPre s "lc-jade-prod_" then
    let rest := (s.data.drop 13).takeWhile isW1
    if rest.isEmpty then
      if bare.isEmpty then none else some (String.mk bare)
    else some (String.mk rest)
  else if bare.isEmpty then none else some (String.mk bare)

/-- Group 1 of pattern `^([a-zA-Z0-9-]+)-[a-f0-9]+-[a-z0-9]+$`: the hex and
tail segments contain no hyphen, so they are exactly the last two
hyphen-separated segments; the greedy group takes everything before
them. -/
def p3Group1 (s : String) : Option String :=
  let parts := s.data.splitOn '-'
  if parts.length ≥ 3 then
    let t := parts.getLastD []
    let h := parts.dropLast.getLastD []
    let pjoin := List.intercalate ['-'] (parts.dropLast.dropLast)
    if !t.isEmpty && t.all isLowerAlnum && !h.isEmpty && h.all isLowerHex &&
       !pjoin.isEmpty &&
       pjoin.all (fun c => isAlnumCI c || c = '-')
    then some (String.mk pjoin)
    else none
  else none

/-- Group 1 of pattern `^([a-zA-Z0-9][a-zA-Z0-9-_]*[a-zA-Z0-9])$`. -/
def p4Group1 (s : String) : Option String :=
  let cs := s.data
  if cs.length ≥ 2 && isAlnumCI (cs.getD 0 '?') && isAlnumCI (cs.getLastD '?')
     && (cs.drop 1).dropLast.all isW1
  then some s
  else none

/-- Model of `extractFromString`: try the four patterns in order, accepting the first
valid captured name; otherwise fall back to cleaning the input directly. -/
def extractFromString (input : String) : String :=
  if input = "" then ""
  else
    let pats : List (String → Option String) :=
      [p1Group1, p2Group1, p3Group1, p4Group1]
    match pats.findSome? (fun pat =>
        match pat input with
        | some g1 => if isValidServiceName g1 then some g1 else none
        | none => none) with
    | some g1 => g1
    | none =>
        let cleaned := cleanServiceName input
        if isValidServiceName cleaned then cleaned else ""

/-- Model of `extractFromFilePath`: walk the `/`-separated components, skipping the
well-known directory names, and return the first component that yields a
service name. -/
def extractFromFilePathParts : List String → String
  | [] => ""
  | p :: rest =>
      if p = "" || p = "var" || p = "lib" || p = "docker" || p = "containers"
      then extractFromFilePathParts rest
      else
        let name := extractFromString p
        if name ≠ "" then name else extractFromFilePathParts rest

def extractFromFilePath (filePath : String) : String :=
  extractFromFilePathParts
    ((filePath.data.splitOn '/').map String.mk)

/-- Outcome of `ExtractServiceName`: a Go `(string, error)` return, or a
runtime panic. -/
inductive ExtractOut where
  | panicked
  | failed
  | ok (s : String)
deriving DecidableEq

/-- The service loop at the end of `ExtractServiceName`. -/
def loopSources : List String → ExtractOut
  | [] => ExtractOut.failed
  | src :: rest =>
      if src ≠ "" then
        let name := extractFromString src
        if name ≠ "" then ExtractOut.ok (normalizeServiceName name)
        else loopSources rest
      else loopSources rest

/-- Model of `ServiceExtractor.ExtractServiceName`.  The first secondary source is
built with the unchecked type assertion
`rawLog.Source.Host["name"].(string)` (the source itself carries the
comment "This might cause panic, need to handle safely"): when the entry is
absent or not a string, the assertion panics. -/
def ExtractServiceName (rawLog : RawLog) : ExtractOut :=
  if rawLog.Source.Fields.ServiceName ≠ "" then
    ExtractOut.ok (normalizeServiceName rawLog.Source.Fields.ServiceName)
  else
    match findMap rawLog.Source.Host "name" with
    | some (GoVal.str h0) =>
        let sources := [h0] ++
          (match findMap rawLog.Source.Host "name" with
           | some (GoVal.str h) => [h]
           | _ => []) ++
          (match findMap rawLog.Source.Agent "name" with
           | some (GoVal.str a) => [a]
           | _ => [])
        let fromFile :=
          match findMap rawLog.Source.Log "file" with
          | some (GoVal.obj fileMap) =>
              match findMap fileMap "path" with
              | some (GoVal.str p) =>
                  let n := extractFromFilePath p
                  if n ≠ "" then some n else none
              | _ => none
          | _ => none
        match fromFile with
        | some n => ExtractOut.ok (normalizeServiceName n)
        | none => loopSources sources
    | _ => ExtractOut.panicked

/-- Model of `processor.extractServiceFromIndex`: drop a trailing `*` and the
suffixes `-log`, `-prod`, `-staging`. -/
def extractServiceFromIndex (indexName : String) : String :=
  let s := strTrimSuf indexName "*"
  ["-log", "-prod", "-staging"].foldl
    (fun acc suf => if strHasSuf acc suf then strTrimSuf acc suf else acc) s

/-! ### Wrapper removal -/

def takeDigitsN : Nat → List Char → Option (List Char)
  | 0, l => some l
  | _ + 1, [] => none
  | n + 1, c :: rest => if c.isDigit then takeDigitsN n rest else none

def expectCh (ch : Char) : List Char → Option (List Char)
  | c :: rest => if c = ch then some rest else none
  | [] => none

def expectLit (lit : List Char) (l : List Char) : Option (List Char) :=
  if lit.isPrefixOf l then some (l.drop lit.length) else none

/-- One-or-more `\s`, greedy. -/
def expectSpaces (l : List Char) : Option (List Char) :=
  match l with
  | c :: rest => if isGoSpace c then some (rest.dropWhile isGoSpace) else none
  | [] => none

/-- Match of the wrapper regex
`^\d{4}-\d{2}-\d{2}T\d{2}:\d{2}:\d{2}\.\d+Z\s+stderr\s+F\s+(.*)$`, returning
the capture.  `.` does not cross a newline and `$` anchors at the end of
text, so the capture may not contain a newline. -/
def expectDigits1 : List Char → Option (List Char)
  | c :: rest => if c.isDigit then some (rest.dropWhile Char.isDigit) else none
  | [] => none

def wrapperMatch (l : List Char) : Option (List Char) :=
  match takeDigitsN 4 l with
  | none => none
  | some l =>
  match expectCh '-' l with
  | none => none
  | some l =>
  match takeDigitsN 2 l with
  | none => none
  | some l =>
  match expectCh '-' l with
  | none => none
  | some l =>
  match takeDigitsN 2 l with
  | none => none
  | some l =>
  match expectCh 'T' l with
  | none => none
  | some l =>
  match takeDigitsN 2 l with
  | none => none
  | some l =>
  match expectCh ':' l with
  | none => none
  | some l =>
  match takeDigitsN 2 l with
  | none => none
  | some l =>
  match expectCh ':' l with
  | none => none
  | some l =>
  match takeDigitsN 2 l with
  | none => none
  | some l =>
  match expectCh '.' l with
  | none => none
  | some l =>
  match expectDigits1 l with
  | none => none
  | some l =>
  match expectCh 'Z' l with
  | none => none
  | some l =>
  match expectSpaces l with
  | none => none
  | some l =>
  match expectLit "stderr".data l with
  | none => none
  | some l =>
  match expectSpaces l with
  | none => none
  | some l =>
  match expectCh 'F' l with
  | none => none
  | some l =>
  match expectSpaces l with
  | none => none
  | some rest =>
  if rest.contains '\n' then none else some rest

/-- Model of `LogPreprocessor.removeWrapper`. -/
def removeWrapper (message : String) : Except String String :=
  match wrapperMatch message.data with
  | some inner => Except.ok (String.mk inner)
  | none =>
      if strHasPre (String.mk (trimSpace message.data)) "\x7b" then
        Except.ok message
      else Except.error "message does not match expected format"

/-! ### Inner JSON parsing

The model of `encoding/json` is restricted to flat objects with string
values — the shape of every `InnerLogData` payload; other JSON shapes are
rejected.  (The concrete payloads evaluated in this development are all
within the fragment.) -/

def skipWs (l : List Char) : List Char := l.dropWhile isGoSpace

def parseJStrBody (fuel : Nat) (acc : List Char) (l : List Char) :
    Option (String × List Char) :=
  match fuel, l with
  | 0, _ => none
  | _ + 1, [] => none
  | f + 1, c :: rest =>
      if c = '"' then some (String.mk acc.reverse, rest)
      else if c = '\\' then
        match rest with
        | '"' :: r2 => parseJStrBody f ('"' :: acc) r2
        | '\\' :: r2 => parseJStrBody f ('\\' :: acc) r2
        | 'n' :: r2 => parseJStrBody f ('\n' :: acc) r2
        | 't' :: r2 => parseJStrBody f ('\t' :: acc) r2
        | _ => none
      else parseJStrBody f (c :: acc) rest

def parseMembers (fuel : Nat) (acc : List (String × String))
    (l : List Char) : Option (List (String × String)) :=
  match fuel with
  | 0 => none
  | f + 1 =>
      match skipWs l with
      | '"' :: rest =>
          match parseJStrBody fuel [] rest with
          | none => none
          | some (k, l2) =>
              match skipWs l2 with
              | ':' :: l3 =>
                  match skipWs l3 with
                  | '"' :: l4 =>
                      match parseJStrBody fuel [] l4 with
                      | none => none
                      | some (v, l5) =>
                          match skipWs l5 with
                          | ',' :: l6 => parseMembers f (acc ++ [(k, v)]) l6
                          | '}' :: l6 =>
                              if (skipWs l6).isEmpty then some (acc ++ [(k, v)])
                              else none
                          | _ => none
                  | _ => none
              | _ => none
      | _ => none

def parseJsonFlat (s : String) : Option (List (String × String)) :=
  match skipWs s.data with
  | '{' :: rest =>
      match skipWs rest with
      | '}' :: r2 => if (skipWs r2).isEmpty then some [] else none
      | _ => parseMembers (s.data.length + 1) [] rest
  | _ => none

/-! ### Timestamp parsing -/

def isLeapYear (y : Int) : Bool :=
  (y % 4 = 0 && y % 100 ≠ 0) || y % 400 = 0

def daysInMonth (y : Int) (m : Nat) : Nat :=
  if m = 2 then (if isLeapYear y then 29 else 28)
  else if m = 4 || m = 6 || m = 9 || m = 11 then 30
  else 31

/-- Civil-date to epoch-day conversion (positive years only, which is all
that valid RFC3339 inputs here produce). -/
def daysFromCivil (y : Int) (mo da : Nat) : Int :=
  let yy : Int := if mo ≤ 2 then y - 1 else y
  let era : Int := yy / 400
  let yoe : Int := yy - era * 400
  let mp : Int := Int.ofNat ((mo + 9) % 12)
  let doy : Int := (153 * mp + 2) / 5 + Int.ofNat da - 1
  let doe : Int := yoe * 365 + yoe / 4 - yoe / 100 + doy
  era * 146097 + doe - 719468

def rdDigits : Nat → Nat → List Char → Option (Nat × List Char)
  | 0, acc, l => some (acc, l)
  | _ + 1, _, [] => none
  | n + 1, acc, c :: rest =>
      if c.isDigit then rdDigits n (acc * 10 + (c.toNat - 48)) rest else none

/-- Read `NN-NN` or `NN:NN` style pairs: two 2-digit numbers around a
separator. -/
def rdPair (sep : Char) (l : List Char) : Option (Nat × Nat × List Char) :=
  match rdDigits 2 0 l with
  | none => none
  | some (a, l) =>
  match expectCh sep l with
  | none => none
  | some l =>
  match rdDigits 2 0 l with
  | none => none
  | some (b, l) => some (a, b, l)

/-- Optional fractional seconds `.d+`. -/
def skipFrac : List Char → Option (List Char)
  | '.' :: rest =>
      (match rest with
       | c :: _ => if c.isDigit then some (rest.dropWhile Char.isDigit)
                   else none
       | [] => none)
  | l => some l

/-- Timezone suffix `Z` or `±hh:mm`, as seconds east of UTC; must consume
the rest of the input. -/
def rdOffset : List Char → Option Int
  | ['Z'] => some 0
  | '+' :: rest =>
      (match rdPair ':' rest with
       | some (oh, om, l4) =>
           if l4.isEmpty && oh < 24 && om < 60 then
             some (Int.ofNat (oh * 3600 + om * 60))
           else none
       | none => none)
  | '-' :: rest =>
      (match rdPair ':' rest with
       | some (oh, om, l4) =>
           if l4.isEmpty && oh < 24 && om < 60 then
             some (-Int.ofNat (oh * 3600 + om * 60))
           else none
       | none => none)
  | _ => none

/-- Model of `time.Time` JSON unmarshalling: strict RFC3339 with optional
fractional seconds (`2006-01-02T15:04:05(.999…)?(Z|±hh:mm)`).  The `hour`
of the result is the wall-clock hour in the value's own offset. -/
def parseRFC3339 (s : String) : Option GoTime :=
  match rdDigits 4 0 s.data with
  | none => none
  | some (y, l) =>
  match expectCh '-' l with
  | none => none
  | some l =>
  match rdPair '-' l with
  | none => none
  | some (mo, da, l) =>
  match expectCh 'T' l with
  | none => none
  | some l =>
  match rdPair ':' l with
  | none => none
  | some (hh, mi, l) =>
  match expectCh ':' l with
  | none => none
  | some l =>
  match rdDigits 2 0 l with
  | none => none
  | some (ss, l) =>
  match skipFrac l with
  | none => none
  | some l =>
  match rdOffset l with
  | none => none
  | some offset =>
  if 1 ≤ mo && mo ≤ 12 && 1 ≤ da && da ≤ daysInMonth (Int.ofNat y) mo &&
     hh < 24 && mi < 60 && ss < 60 then
    some ⟨daysFromCivil (Int.ofNat y) mo da * 86400 +
          Int.ofNat (hh * 3600 + mi * 60 + ss) - offset, hh⟩
  else none

/-- Model of `processor.InnerLogData`. -/
structure InnerLogData where
  Timestamp : GoTime
  Caller : String
  Content : String
  Level : String
  Span : String
  Trace : String
deriving DecidableEq

/-- Model of `LogPreprocessor.parseInnerJSON`: unescape `\"`, then unmarshal into
`InnerLogData` (an absent `@timestamp` stays the zero time; an invalid one
fails the unmarshal). -/
def parseInnerJSON (jsonStr : String) : Except String InnerLogData :=
  let cleanJSON := strReplaceAll jsonStr "\\\"" "\""
  match parseJsonFlat cleanJSON with
  | none => Except.error "failed to unmarshal JSON"
  | some fields =>
      let getF := fun k => (findMap fields k).getD ""
      match findMap fields "@timestamp" with
      | none =>
          Except.ok ⟨goZeroTime, getF "caller", getF "content", getF "level",
            getF "span", getF "trace"⟩
      | some ts =>
          match parseRFC3339 ts with
          | none => Except.error "failed to unmarshal JSON"
          | some t =>
              Except.ok ⟨t, getF "caller", getF "content", getF "level",
                getF "span", getF "trace"⟩

/-- Model of `LogPreprocessor.validateParsedLog`: the accepted level set is
`error`, `warn`, `info`, `debug` (checked on the lowercased level; the
stored level is left as supplied). -/
def validateParsedLog (log : ParsedLog) : Except String Unit :=
  if log.Timestamp.IsZero then Except.error "timestamp is required"
  else if log.Content = "" then Except.error "content is required"
  else if log.Level = "" then Except.error "level is required"
  else if log.ServiceName = "" then Except.error "service name is required"
  else if !(["error", "warn", "info", "debug"].contains
      (strToLower log.Level)) then
    Except.error "invalid log level"
  else Except.ok ()

/-- Outcome of `processRawLog`: a record, a per-record error (the record is
dropped and counted), or a propagated panic from the service extractor. -/
inductive ProcOut where
  | ok (p : ParsedLog)
  | err (msg : String)
  | panicked
deriving DecidableEq

def finishParsed (innerLog : InnerLogData) (serviceName : String) : ProcOut :=
  let parsedLog : ParsedLog :=
    ⟨innerLog.Timestamp, innerLog.Caller, innerLog.Content, innerLog.Level,
     innerLog.Span, innerLog.Trace, serviceName⟩
  match validateParsedLog parsedLog with
  | Except.ok _ => ProcOut.ok parsedLog
  | Except.error e => ProcOut.err e

/-- Model of `LogPreprocessor.processRawLog`. -/
def processRawLog (rawLog : RawLog) : ProcOut :=
  let messageContent :=
    if rawLog.Source.Message ≠ "" then rawLog.Source.Message
    else if rawLog.Source.Event.Original ≠ "" then rawLog.Source.Event.Original
    else ""
  if messageContent = "" then ProcOut.err "no message content found"
  else
    match removeWrapper messageContent with
    | Except.error e => ProcOut.err e
    | Except.ok innerJSON =>
        match parseInnerJSON innerJSON with
        | Except.error e => ProcOut.err e
        | Except.ok innerLog =>
            match ExtractServiceName rawLog with
            | ExtractOut.panicked => ProcOut.panicked
            | ExtractOut.ok serviceName => finishParsed innerLog serviceName
            | ExtractOut.failed =>
                let serviceName := rawLog.Source.Fields.ServiceName
                if serviceName ≠ "" then finishParsed innerLog serviceName
                else
                  let serviceName := extractServiceFromIndex rawLog.Index
                  if serviceName = "" then
                    ProcOut.err "unable to extract service name from log"
                  else finishParsed innerLog serviceName

/-- Model of `JSONParser.NormalizeLogLevel` (defined in the JSON-parser helper; not
invoked from `processRawLog`). -/
def NormalizeLogLevel (level : String) : String :=
  let l := strToLower (String.mk (trimSpace level.data))
  if l = "err" then "error"
  else if l = "warning" then "warn"
  else l

end Preprocessor

/-! ## Pipeline analysis records and the reporter's count extractor
(`internal/pipeline/pipeline.go`, `internal/reporter/reporter.go`) -/

namespace Pipeline

/-- Decimal digits of a natural number, least significant first; fuel-based
so the definition is structural (any fuel ≥ 1 yields a non-empty digit
list, and fuel `n + 1` is exact). -/
def natDigitsRev : Nat → Nat → List Char
  | 0, _ => []
  | fuel + 1, n =>
      if n < 10 then [Char.ofNat (48 + n)]
      else Char.ofNat (48 + n % 10) :: natDigitsRev fuel (n / 10)

/-- Model of `fmt` `%d` for the (non-negative) counts appearing here. -/
def natToDecimal (n : Nat) : String :=
  String.mk (natDigitsRev (n + 1) n).reverse

/-- The `Reason` string built in `createAnalysesFromErrorGroups`:
`fmt.Sprintf("錯誤在服務 %s 中發生了 %d 次", serviceName, totalCount)`. -/
def formatReason (serviceName : String) (totalCount : Nat) : String :=
  "錯誤在服務 " ++ serviceName ++ " 中發生了 " ++ natToDecimal totalCount ++
    " 次"

/-- Model of `models.Analysis` (the fields built by the pipeline). -/
structure Analysis where
  ErrorGroupID : String
  IsKnown : Bool
  IssueID : String
  Severity : String
  Reason : String
  SuggestedActions : List String
deriving DecidableEq

/-- Model of `pipeline.truncateString` (Go slices bytes; the model slices
characters, which agrees on the ASCII contents relevant here). -/
def truncateString (s : String) (maxLen : Nat) : String :=
  if s.data.length ≤ maxLen then s
  else String.mk (s.data.take maxLen) ++ "..."

/-- One iteration of `createAnalysesFromErrorGroups`, parametrised like the
registry matcher by the map iteration order. -/
def createAnalysis (order : List KnownIssues.KnownIssue) (group : ErrorGroup) :
    Analysis :=
  let severity :=
    if group.TotalCount ≥ 50 then "high"
    else if group.TotalCount ≥ 10 then "medium"
    else "low"
  let matched :=
    KnownIssues.MatchContentAndService order group.NormalizedContent
      group.ServiceName
  { ErrorGroupID := String.mk (group.Fingerprint.data.take 8)
    IsKnown := matched.isSome
    IssueID := match matched with | some i => i.ID | none => ""
    Severity := severity
    Reason := formatReason group.ServiceName group.TotalCount
    SuggestedActions :=
      ["調查錯誤模式：" ++ truncateString group.NormalizedContent 60,
       "檢查來自調用者的日誌：" ++ group.CallerFile,
       "與部署或配置變更相關聯"] }

/-- Model of `pipeline.createAnalysesFromErrorGroups`. -/
def createAnalysesFromErrorGroups (order : List KnownIssues.KnownIssue)
    (groups : List ErrorGroup) : List Analysis :=
  groups.map (createAnalysis order)

end Pipeline

namespace Reporter

/-- Attempted match of `(\d+)\s*(?:次|times)` at the head of the input,
returning the captured digits.  `\d+` is greedy; giving digits back cannot
help (the following `\s*` then literal would have to start with a digit),
and giving spaces back cannot help either (the literal would have to start
with a space), so the maximal-munch reading below is exactly the
backtracking semantics of the pattern. -/
def tryCount (l : List Char) : Option (List Char) :=
  match l with
  | [] => none
  | c :: _ =>
      if c.isDigit then
        let ds := l.takeWhile Char.isDigit
        let rest := (l.dropWhile Char.isDigit).dropWhile isGoSpace
        if "次".data.isPrefixOf rest || "times".data.isPrefixOf rest then
          some ds
        else none
      else none

/-- Leftmost match: scan position by position. -/
def findCount : List Char → Option (List Char)
  | [] => none
  | c :: rest =>
      match tryCount (c :: rest) with
      | some ds => some ds
      | none => findCount rest

/-- Model of `reporter.extractCountFromReason`: the first capture of
`(\d+)\s*(?:次|times)`, or `"unknown"`. -/
def extractCountFromReason (reason : String) : String :=
  match findCount reason.data with
  | some ds => String.mk ds
  | none => "unknown"

/-- A digit run immediately followed by the literal `times` somewhere in the
list (the shape of service name that defeats the count extractor). -/
def hasDigitTimes : List Char → Bool
  | [] => false
  | c :: rest =>
      (c.isDigit && "times".data.isPrefixOf (rest.dropWhile Char.isDigit)) ||
        hasDigitTimes rest

/-- Character class of cleaned service names: `[a-z0-9-]`. -/
def isServiceChar (c : Char) : Bool :=
  isLowerAlnum c || c = '-'

end Reporter

/-! ## Concrete inputs used to settle the claims -/

namespace Inputs

/-- A sample instant (10:00 hour of day). -/
def t0 : GoTime := ⟨1760000000, 10⟩

/-- Scenario S1, first record: `("User 42 not found", "svc-a", "h.go:1")`. -/
def s1rec1 : ParsedLog := ⟨t0, "h.go:1", "User 42 not found", "error", "", "",
  "svc-a"⟩

/-- Scenario S1, second record: `("User 9999 not found", "svc-a",
"h.go:1")`. -/
def s1rec2 : ParsedLog := ⟨t0, "h.go:1", "User 9999 not found", "error", "",
  "", "svc-a"⟩

/-- Two records with distinct contents (hence distinct fingerprints) and
equal group counts; the first-inserted fingerprint
`4edfec9a…` is lexicographically above the second `28ba3e45…`. -/
def tieRec1 : ParsedLog := ⟨t0, "h.go:1", "alpha", "error", "", "", "svc-a"⟩

def tieRec2 : ParsedLog := ⟨t0, "h.go:1", "beta", "error", "", "", "svc-a"⟩

/-- A raw document whose service hint is empty and whose `host` map has no
`name` entry (nil/empty maps read alike). -/
def hostlessDoc : RawLog :=
  ⟨"pp-slot-api-log*", "doc-1",
   ⟨⟨""⟩,
    "\x7b\"@timestamp\":\"2026-01-10T19:30:32Z\",\"caller\":\"a.go:1\",\"content\":\"boom\",\"level\":\"error\"\x7d",
    ⟨""⟩, [], [], []⟩,
   t0⟩

/-- A raw document whose service hint is empty and whose `host["name"]`
holds a number, not a string. -/
def numHostDoc : RawLog :=
  ⟨"pp-slot-api-log*", "doc-2",
   ⟨⟨""⟩,
    "\x7b\"@timestamp\":\"2026-01-10T19:30:32Z\",\"caller\":\"a.go:1\",\"content\":\"boom\",\"level\":\"error\"\x7d",
    ⟨""⟩, [], [], [("name", GoVal.num 5)]⟩,
   t0⟩

/-- An otherwise-valid raw document whose inner level is `"err"`. -/
def errLevelDoc : RawLog :=
  ⟨"test-log*", "doc-3",
   ⟨⟨""⟩,
    "\x7b\"@timestamp\":\"2026-01-10T19:30:32Z\",\"caller\":\"logic/a.go:10\",\"content\":\"boom\",\"level\":\"err\"\x7d",
    ⟨"test-service"⟩, [], [], []⟩,
   t0⟩

/-- An otherwise-valid raw document whose inner level is `"warning"`. -/
def warningLevelDoc : RawLog :=
  ⟨"test-log*", "doc-4",
   ⟨⟨""⟩,
    "\x7b\"@timestamp\":\"2026-01-10T19:30:32Z\",\"caller\":\"logic/a.go:10\",\"content\":\"boom\",\"level\":\"warning\"\x7d",
    ⟨"test-service"⟩, [], [], []⟩,
   t0⟩

/-- An environment in which every HTTP request fails to connect. -/
def allConnFail : Nat → String → Fetcher.HTTPOutcome :=
  fun _ _ => Fetcher.HTTPOutcome.connErr

/-- An environment in which every response fails to decode. -/
def allDecodeFail : Nat → String → Fetcher.HTTPOutcome :=
  fun _ _ => Fetcher.HTTPOutcome.decodeErr

end Inputs

/-! ## Helper lemmas -/

theorem sumVals_incrKey (m : List (String × Nat)) (k : String) :
    sumVals (incrKey m k) = sumVals m + 1 := by
  induction m with
  | nil => simp [incrKey, sumVals]
  | cons p rest ih =>
      obtain ⟨k', c⟩ := p
      by_cases h : k' = k
      · simp [incrKey, h, sumVals]
        omega
      · simp [incrKey, h, sumVals] at ih ⊢
        omega

theorem mem_setMap {α : Type} {m : List (String × α)} {k : String} {v : α}
    {p : String × α} (hp : p ∈ setMap m k v) : p = (k, v) ∨ p ∈ m := by
  induction m with
  | nil => simpa [setMap] using hp
  | cons q rest ih =>
      obtain ⟨k', v'⟩ := q
      by_cases h : k' = k
      · simp [setMap, h] at hp
        rcases hp with h1 | h1
        · exact Or.inl (by simp [h1])
        · exact Or.inr (by simp [h1])
      · simp [setMap, h] at hp
        rcases hp with h1 | h1
        · exact Or.inr (by simp [h1])
        · rcases ih h1 with h2 | h2
          · exact Or.inl h2
          · exact Or.inr (by simp [h2])

theorem findMap_mem {α : Type} {m : List (String × α)} {k : String} {v : α}
    (h : findMap m k = some v) : (k, v) ∈ m := by
  induction m with
  | nil => simp [findMap] at h
  | cons q rest ih =>
      obtain ⟨k', v'⟩ := q
      by_cases hk : k' = k
      · simp [findMap, hk] at h
        simp [hk, h]
      · simp [findMap, hk] at h
        exact List.mem_cons_of_mem _ (ih h)

theorem mem_incrKey {m : List (String × Nat)} {k : String}
    {p : String × Nat} (hp : p ∈ incrKey m k) : p.1 = k ∨ p ∈ m := by
  induction m with
  | nil =>
      simp [incrKey] at hp
      exact Or.inl (by simp [hp])
  | cons q rest ih =>
      obtain ⟨k', c⟩ := q
      by_cases h : k' = k
      · simp [incrKey, h] at hp
        rcases hp with h1 | h1
        · exact Or.inl (by simp [h1])
        · exact Or.inr (by simp [h1])
      · simp [incrKey, h] at hp
        rcases hp with h1 | h1
        · exact Or.inr (by simp [h1])
        · rcases ih h1 with h2 | h2
          · exact Or.inl h2
          · exact Or.inr (by simp [h2])

theorem mem_insertLe {α : Type} {le : α → α → Bool} {a x : α} {l : List α} :
    x ∈ insertLe le a l ↔ x = a ∨ x ∈ l := by
  induction l with
  | nil => simp [insertLe]
  | cons b rest ih =>
      by_cases h : le a b <;>
        simp only [insertLe, h, if_pos, Bool.false_eq_true, if_false,
          List.mem_cons, ih] <;>
        tauto

theorem mem_sortLe {α : Type} {le : α → α → Bool} {x : α} {l : List α} :
    x ∈ sortLe le l ↔ x ∈ l := by
  induction l with
  | nil => simp [sortLe]
  | cons a rest ih =>
      simp [sortLe, mem_insertLe, ih]

theorem pairwise_insertLe {α : Type} {le : α → α → Bool} {a : α} {l : List α}
    (htrans : ∀ x y z, le x y = true → le y z = true → le x z = true)
    (htot : ∀ x y, le x y = true ∨ le y x = true)
    (h : l.Pairwise (fun x y => le x y = true)) :
    (insertLe le a l).Pairwise (fun x y => le x y = true) := by
  induction l with
  | nil => simp [insertLe]
  | cons b rest ih =>
      rcases h with _ | ⟨hb, hrest⟩
      by_cases hab : le a b
      · simp only [insertLe, hab, if_pos]
        refine List.Pairwise.cons ?_ (List.Pairwise.cons hb hrest)
        intro y hy
        rcases List.mem_cons.mp hy with rfl | hy
        · exact hab
        · exact htrans a b y hab (hb y hy)
      · simp only [insertLe, hab, if_neg, Bool.not_eq_true]
        refine List.Pairwise.cons ?_ (ih hrest)
        intro y hy
        rcases mem_insertLe.mp hy with rfl | hy
        · rcases htot b y with h1 | h1
          · exact h1
          · exact absurd h1 (by simpa using hab)
        · exact hb y hy

theorem pairwise_sortLe {α : Type} {le : α → α → Bool} {l : List α}
    (htrans : ∀ x y z, le x y = true → le y z = true → le x z = true)
    (htot : ∀ x y, le x y = true ∨ le y x = true) :
    (sortLe le l).Pairwise (fun x y => le x y = true) := by
  induction l with
  | nil => simp [sortLe]
  | cons a rest ih => exact pairwise_insertLe htrans htot ih

theorem foldl_inv {α σ : Type} (P : σ → Prop) (Q : α → Prop)
    (f : σ → α → σ)
    (hstep : ∀ s a, Q a → P s → P (f s a)) :
    ∀ (l : List α), (∀ a ∈ l, Q a) → ∀ s, P s → P (List.foldl f s l) := by
  intro l
  induction l with
  | nil => intro _ s hs; simpa using hs
  | cons a rest ih =>
      intro hq s hs
      simp only [List.foldl_cons]
      exact ih (fun b hb => hq b (List.mem_cons_of_mem _ hb)) _
        (hstep s a (hq a (List.mem_cons_self _ _)) hs)

/-! ## Lemmas about the normalizer's grouping loop -/

theorem finalizeGroup_TotalCount (cfg : Normalizer.NormalizationConfig)
    (g : ErrorGroup) :
    (Normalizer.finalizeGroup cfg g).TotalCount = g.TotalCount := rfl

theorem finalizeGroup_TimeDistribution (cfg : Normalizer.NormalizationConfig)
    (g : ErrorGroup) :
    (Normalizer.finalizeGroup cfg g).TimeDistribution = g.TimeDistribution :=
  rfl

theorem finalizeGroup_PeakWindow (cfg : Normalizer.NormalizationConfig)
    (g : ErrorGroup) :
    (Normalizer.finalizeGroup cfg g).PeakWindow =
      Normalizer.calculatePeakWindow g.TimeDistribution := rfl

theorem stepGroup_sum_inv (cfg : Normalizer.NormalizationConfig)
    (m : List (String × ErrorGroup)) (log : ParsedLog)
    (hm : ∀ p ∈ m, sumVals p.2.TimeDistribution = p.2.TotalCount) :
    ∀ p ∈ Normalizer.stepGroup cfg m log,
      sumVals p.2.TimeDistribution = p.2.TotalCount := by
  intro p hp
  simp only [Normalizer.stepGroup] at hp
  rcases mem_setMap hp with hpe | hpm
  · subst hpe
    rcases hfind : findMap m (Normalizer.calculateFingerprint
        (Normalizer.normalizeContent log.Content cfg) log.ServiceName
        log.Caller) with _ | g
    · simp only [hfind, Option.getD_none, Normalizer.applyLog,
        Normalizer.freshGroup, sumVals_incrKey]
      rfl
    · have hbase : sumVals g.TimeDistribution = g.TotalCount :=
        hm _ (findMap_mem hfind)
      simp only [hfind, Option.getD_some, Normalizer.applyLog,
        sumVals_incrKey]
      omega
  · exact hm p hpm

theorem buildGroups_sum_inv (logs : List ParsedLog)
    (cfg : Normalizer.NormalizationConfig) :
    ∀ p ∈ Normalizer.buildGroups logs cfg,
      sumVals p.2.TimeDistribution = p.2.TotalCount := by
  have := foldl_inv
    (fun m => ∀ p ∈ m, sumVals p.2.TimeDistribution = p.2.TotalCount)
    (fun _ => True)
    (Normalizer.stepGroup cfg)
    (fun m log _ hm => stepGroup_sum_inv cfg m log hm)
    logs (fun _ _ => trivial) [] (by intro p hp; simp at hp)
  exact this

theorem stepGroup_key_inv (cfg : Normalizer.NormalizationConfig)
    (m : List (String × ErrorGroup)) (log : ParsedLog)
    (hlog : log.Timestamp.hour < 24)
    (hm : ∀ p ∈ m, ∀ q ∈ p.2.TimeDistribution,
      ∃ h, h < 24 ∧ q.1 = Normalizer.hourKey h) :
    ∀ p ∈ Normalizer.stepGroup cfg m log, ∀ q ∈ p.2.TimeDistribution,
      ∃ h, h < 24 ∧ q.1 = Normalizer.hourKey h := by
  intro p hp q hq
  simp only [Normalizer.stepGroup] at hp
  rcases mem_setMap hp with hpe | hpm
  · subst hpe
    simp only [Normalizer.applyLog] at hq
    rcases mem_incrKey hq with hk | hmem
    · exact ⟨log.Timestamp.hour, hlog, hk⟩
    · rcases hfind : findMap m (Normalizer.calculateFingerprint
          (Normalizer.normalizeContent log.Content cfg) log.ServiceName
          log.Caller) with _ | g
      · simp only [hfind, Option.getD_none, Normalizer.freshGroup] at hmem
        simp at hmem
      · simp only [hfind, Option.getD_some] at hmem
        exact hm _ (findMap_mem hfind) q hmem
  · exact hm p hpm q hq

theorem buildGroups_key_inv (logs : List ParsedLog)
    (cfg : Normalizer.NormalizationConfig)
    (hlogs : ∀ l ∈ logs, l.Timestamp.hour < 24) :
    ∀ p ∈ Normalizer.buildGroups logs cfg, ∀ q ∈ p.2.TimeDistribution,
      ∃ h, h < 24 ∧ q.1 = Normalizer.hourKey h := by
  have := foldl_inv
    (fun m => ∀ p ∈ m, ∀ q ∈ p.2.TimeDistribution,
      ∃ h, h < 24 ∧ q.1 = Normalizer.hourKey h)
    (fun l => l.Timestamp.hour < 24)
    (Normalizer.stepGroup cfg)
    (fun m log hQ hm => stepGroup_key_inv cfg m log hQ hm)
    logs hlogs [] (by intro p hp; simp at hp)
  exact this

theorem parseFullLayout_hourKey_none :
    ∀ h, h < 24 → Normalizer.parseFullLayout (Normalizer.hourKey h) = none := by
  decide

theorem findPeak_mem (dist : List (String × Nat)) :
    (Normalizer.findPeak dist).1 = "" ∨
      (Normalizer.findPeak dist).1 ∈ dist.map Prod.fst := by
  have := foldl_inv
    (fun st : String × Nat => st.1 = "" ∨ st.1 ∈ dist.map Prod.fst)
    (fun p => p ∈ dist)
    (fun acc p => if p.2 > acc.2 then p else acc)
    (by
      intro st p hQ hst
      by_cases h : p.2 > st.2
      · simp only [h, if_pos]
        exact Or.inr (List.mem_map_of_mem _ hQ)
      · simpa [h] using hst)
    dist (fun _ ha => ha) ("", 0) (Or.inl rfl)
  exact this

theorem calculatePeakWindow_none (dist : List (String × Nat))
    (hk : ∀ q ∈ dist, ∃ h, h < 24 ∧ q.1 = Normalizer.hourKey h) :
    Normalizer.calculatePeakWindow dist = none := by
  unfold Normalizer.calculatePeakWindow
  by_cases he : dist.isEmpty
  · simp [he]
  · simp only [he, if_false]
    rcases findPeak_mem dist with h0 | hmem
    · simp [h0]
    · rcases List.mem_map.mp hmem with ⟨q, hq, hq1⟩
      rcases hk q hq with ⟨h, hlt, hkey⟩
      have : Normalizer.parseFullLayout (Normalizer.findPeak dist).1 = none := by
        rw [← hq1, hkey]
        exact parseFullLayout_hourKey_none h hlt
      by_cases hpe : (Normalizer.findPeak dist).1 = ""
      · simp [hpe]
      · simp [hpe, this]

/-! ## Claim theorems -/

/-- Claim C9: for every input list of ParsedRecords and every ErrorGroup
produced from it, the sum of the values of the group's hourly distribution
equals the group's total count. -/
theorem hourly_sum_equals_total_count (logs : List ParsedLog)
    (cfg : Normalizer.NormalizationConfig) (g : ErrorGroup)
    (hg : g ∈ Normalizer.NormalizeWithConfig logs cfg) :
    sumVals g.TimeDistribution = g.TotalCount := by
  unfold Normalizer.NormalizeWithConfig at hg
  rcases List.mem_map.mp (mem_sortLe.mp hg) with ⟨p, hpmem, rfl⟩
  rw [finalizeGroup_TimeDistribution, finalizeGroup_TotalCount]
  exact buildGroups_sum_inv logs cfg p hpmem

/-- Witness for C9: the invariant evaluated on a concrete one-record run. -/
theorem hourly_sum_equals_total_count_witness :
    sumVals ((Normalizer.Normalize [Inputs.s1rec1]).getD 0
        (Normalizer.freshGroup "" "" "" "")).TimeDistribution =
      ((Normalizer.Normalize [Inputs.s1rec1]).getD 0
        (Normalizer.freshGroup "" "" "" "")).TotalCount :=
  hourly_sum_equals_total_count [Inputs.s1rec1]
    Normalizer.DefaultNormalizationConfig _ (by decide)

/-- Claim C3 (the code): for every run whose records carry in-range hours,
every produced ErrorGroup has an absent peak window — `calculatePeakWindow`
parses the `"HH:00"` hour key with the full layout `2006-01-02T15:00:00Z`,
which always fails, so the claimed non-absent peak window never exists. -/
theorem peak_window_always_absent (logs : List ParsedLog)
    (cfg : Normalizer.NormalizationConfig)
    (hlogs : ∀ l ∈ logs, l.Timestamp.hour < 24)
    (g : ErrorGroup) (hg : g ∈ Normalizer.NormalizeWithConfig logs cfg) :
    g.PeakWindow = none := by
  unfold Normalizer.NormalizeWithConfig at hg
  rcases List.mem_map.mp (mem_sortLe.mp hg) with ⟨p, hpmem, rfl⟩
  rw [finalizeGroup_PeakWindow]
  exact calculatePeakWindow_none _ (buildGroups_key_inv logs cfg hlogs p hpmem)

/-- Witness for C3: the group built from one record at hour 10 has no peak
window. -/
theorem peak_window_always_absent_witness :
    ((Normalizer.Normalize [Inputs.s1rec2]).getD 0
      (Normalizer.freshGroup "" "" "" "")).PeakWindow = none :=
  peak_window_always_absent [Inputs.s1rec2]
    Normalizer.DefaultNormalizationConfig (by decide) _ (by decide)

/-- Claim C6 (amended): the ErrorGroups handed to the Aggregator are sorted
by descending total count; the sort has no fingerprint tie-break, so the
relative order of equal-count groups is the group map's iteration order,
not fingerprint-ascending. -/
theorem groups_sorted_by_total_count_desc (logs : List ParsedLog)
    (cfg : Normalizer.NormalizationConfig) :
    (Normalizer.NormalizeWithConfig logs cfg).Pairwise
      (fun a b => b.TotalCount ≤ a.TotalCount) := by
  refine List.Pairwise.imp ?_ (pairwise_sortLe ?_ ?_)
  · intro a b h
    simpa [Normalizer.countLe] using h
  · intro x y z hxy hyz
    simp only [Normalizer.countLe, decide_eq_true_eq] at hxy hyz ⊢
    omega
  · intro x y
    simp only [Normalizer.countLe, decide_eq_true_eq]
    omega

/-- Counterexample for C6: two equal-count groups come out in descending
fingerprint order (`4edfec9a… before 28ba3e45…`), refuting the claimed
ascending-fingerprint tie-break. -/
theorem equal_counts_not_fingerprint_ascending :
    (Normalizer.Normalize [Inputs.tieRec1, Inputs.tieRec2]).map
        (fun g => (g.Fingerprint, g.TotalCount)) =
      [("4edfec9ac6b6c5c8b4bbbe9855f7fd0faf8f9d2f9f9437882e4c8cb685bd3168", 1),
       ("28ba3e45dbf151b80f7c79abe2c5b04f36a0fd5d2c7a288eb799aee28b013211", 1)]
    ∧ strLtChars "28ba3e45dbf151b80f7c79abe2c5b04f36a0fd5d2c7a288eb799aee28b013211"
        "4edfec9ac6b6c5c8b4bbbe9855f7fd0faf8f9d2f9f9437882e4c8cb685bd3168" = true :=
  ⟨by decide, by decide⟩

/-- Claim C8 (amended): the two-record Scenario-S1 input yields exactly one
group with total count 2, but its normalized content is
`"user [NUM] not found"` — the digit mask is inserted after lowercasing, so
the placeholder stays uppercase. -/
theorem s1_one_group_num_masked :
    (Normalizer.Normalize [Inputs.s1rec1, Inputs.s1rec2]).map
        (fun g => (g.NormalizedContent, g.TotalCount)) =
      [("user [NUM] not found", 2)] := by
  decide

/-- Counterexample for C8: the produced normalized content is not the
claimed `"user [num] not found"`. -/
theorem s1_normalized_content_differs :
    (Normalizer.Normalize [Inputs.s1rec1, Inputs.s1rec2]).map
        (fun g => g.NormalizedContent) = ["user [NUM] not found"] ∧
      "user [NUM] not found" ≠ "user [num] not found" :=
  ⟨by decide, by decide⟩

/-- Claim C2 (amended): registry matching iterates the issue map in its own
(unspecified) iteration order and returns the first entry in that order
whose regex matches the content and whose service filter passes; for every
admissible order the result is a registered matching entry, and it is
`none` exactly when no registered entry matches — but which matching entry
is returned depends on the iteration order. -/
theorem match_returns_first_in_iteration_order
    (order : List KnownIssues.KnownIssue) (content service : String)
    (hperm : order.Perm KnownIssues.predefinedIssues) :
    (KnownIssues.MatchContentAndService order content service = none ↔
      ∀ i ∈ KnownIssues.predefinedIssues,
        KnownIssues.issueMatches i content service = false) ∧
    ∀ i, KnownIssues.MatchContentAndService order content service = some i →
      i ∈ KnownIssues.predefinedIssues ∧
        KnownIssues.issueMatches i content service = true := by
  constructor
  · unfold KnownIssues.MatchContentAndService
    rw [List.find?_eq_none]
    constructor
    · intro h i hi
      simpa using h i (hperm.mem_iff.mpr hi)
    · intro h x hx
      simpa using h x (hperm.mem_iff.mp hx)
  · intro i hi
    unfold KnownIssues.MatchContentAndService at hi
    have hpi := List.find?_some hi
    exact ⟨hperm.mem_iff.mp (List.mem_of_find?_eq_some hi),
      by simpa using hpi⟩

/-- Witness for C2 (amended): on the registration order, the Scenario-S3
content does find a matching entry. -/
theorem match_returns_first_in_iteration_order_witness :
    KnownIssues.MatchContentAndService KnownIssues.predefinedIssues
      "unexpected end of JSON input at offset 17" "pp-slot-api" ≠ none := by
  intro h
  have hm := (match_returns_first_in_iteration_order
      KnownIssues.predefinedIssues "unexpected end of JSON input at offset 17"
      "pp-slot-api" (List.Perm.refl _)).1.mp h
  exact absurd
    (hm (KnownIssues.predefinedIssues.getD 1 ⟨"", "", "", "", [], []⟩)
      (by decide))
    (by decide)

/-- Counterexample for C2: the content `"insufficient funds wallet error"`
with service `pp-slot-api` matches both ISSUE-003 and ISSUE-010; the
registration order returns ISSUE-003 while the reversed (equally
admissible) map iteration order returns ISSUE-010, so the result is not
determined by registration order. -/
theorem match_depends_on_iteration_order :
    KnownIssues.predefinedIssues.reverse.Perm KnownIssues.predefinedIssues ∧
    (KnownIssues.MatchContentAndService KnownIssues.predefinedIssues
        "insufficient funds wallet error" "pp-slot-api").map
        (fun i => i.ID) = some "ISSUE-003" ∧
    (KnownIssues.MatchContentAndService KnownIssues.predefinedIssues.reverse
        "insufficient funds wallet error" "pp-slot-api").map
        (fun i => i.ID) = some "ISSUE-010" :=
  ⟨List.reverse_perm _, by decide, by decide⟩

/-- Claim C4 (amended): for a requested duration 0 < D < W the fetcher
issues exactly one window, and it spans `[E − W, E]` (width W = 30
minutes), not `[E − D, E]`. -/
theorem short_duration_window_spans_full_width (D E : Int)
    (h0 : 0 < D) (hW : D < Fetcher.windowNs) :
    Fetcher.fetchWindows D E = [(E - Fetcher.windowNs, E)] := by
  obtain ⟨n, rfl⟩ : ∃ n : Nat, D = (n : Int) :=
    ⟨D.toNat, (Int.toNat_of_nonneg h0.le).symm⟩
  have hn : n < 1800000000000 := by
    unfold Fetcher.windowNs at hW
    exact_mod_cast hW
  have htd : Int.tdiv (n : Int) Fetcher.windowNs = 0 := by
    have hred : Int.tdiv (n : Int) Fetcher.windowNs =
        Int.ofNat (n / 1800000000000) := rfl
    rw [hred, Nat.div_eq_of_lt hn]
    rfl
  unfold Fetcher.fetchWindows Fetcher.numWindows
  rw [htd]
  norm_num [List.range_succ]

/-- Witness for C4 (amended). -/
theorem short_duration_window_spans_full_width_witness :
    Fetcher.fetchWindows 600000000000 123 =
      [(123 - Fetcher.windowNs, 123)] :=
  short_duration_window_spans_full_width 600000000000 123 (by decide)
    (by decide)

/-- Counterexample for C4: D = 10 minutes yields the single window
`[E − 30 min, E]`, whose width is W, not the claimed `[E − D, E]`. -/
theorem short_duration_gets_full_window :
    Fetcher.fetchWindows 600000000000 0 = [(-Fetcher.windowNs, 0)] ∧
      Fetcher.windowNs ≠ 600000000000 :=
  ⟨by decide, by decide⟩

theorem fetchFromWindow_allFail (outcome : String → Fetcher.HTTPOutcome)
    (indices : List String)
    (h : ∀ idx, Fetcher.isFail (outcome idx) = true) :
    Fetcher.fetchFromWindow outcome indices = Except.ok [] := by
  unfold Fetcher.fetchFromWindow
  congr 1
  suffices hs : ∀ (acc : List String),
      indices.foldl (fun acc idx =>
        match outcome idx with
        | Fetcher.HTTPOutcome.ok hits => acc ++ hits
        | _ => acc) acc = acc from hs []
  induction indices with
  | nil => intro acc; rfl
  | cons a as ih =>
      intro acc
      simp only [List.foldl_cons]
      cases ho : outcome a with
      | ok hits => exact absurd (h a) (by simp [Fetcher.isFail, ho])
      | connErr => exact ih acc
      | non200 code => exact ih acc
      | decodeErr => exact ih acc

/-- Claim C5 (amended): after a successfully parsed duration the fetcher
never fails hard — it always returns a nil error with the concatenated
partial results, and in particular a run in which every sub-window request
fails returns an empty success rather than an error. -/
theorem fetch_never_hard_fails (env : Nat → String → Fetcher.HTTPOutcome)
    (indices : List String) (duration endTime : Int) :
    (∃ logs, Fetcher.FetchWithTimeWindows env indices duration endTime =
        Except.ok logs) ∧
    ((∀ i idx, Fetcher.isFail (env i idx) = true) →
      Fetcher.FetchWithTimeWindows env indices duration endTime =
        Except.ok []) := by
  constructor
  · exact ⟨_, rfl⟩
  · intro hfail
    unfold Fetcher.FetchWithTimeWindows
    congr 1
    have hwin : ∀ i, Fetcher.fetchFromWindow (env i) indices =
        Except.ok ([] : List String) :=
      fun i => fetchFromWindow_allFail (env i) indices (hfail i)
    generalize (List.range (Fetcher.numWindows duration).toNat) = ws
    suffices hs : ∀ (acc : List String),
        ws.foldl (fun acc i =>
          match Fetcher.fetchFromWindow (env i) indices with
          | Except.ok logs => acc ++ logs
          | Except.error _ => acc) acc = acc from hs []
    induction ws with
    | nil => intro acc; rfl
    | cons i is ih =>
        intro acc
        simp only [List.foldl_cons, hwin i, List.append_nil]
        exact ih acc

/-- Witness for C5 (amended): a run in which every response fails to decode
returns the empty success. -/
theorem fetch_never_hard_fails_witness :
    Fetcher.FetchWithTimeWindows Inputs.allDecodeFail ["idx-a"]
      3600000000000 0 = Except.ok [] :=
  (fetch_never_hard_fails Inputs.allDecodeFail ["idx-a"]
    3600000000000 0).2 (fun _ _ => rfl)

/-- Counterexample for C5: a two-window run in which every request fails to
connect returns a successful empty result, not an error. -/
theorem all_windows_fail_returns_empty_ok :
    Fetcher.FetchWithTimeWindows Inputs.allConnFail ["pp-slot-api-log*"]
      3600000000000 0 = Except.ok [] := rfl

/-- Claim C1 (the code): on a raw document whose document-level service hint
is empty and whose `host` map is missing the `name` entry — or holds a
non-string there — the unchecked type assertion
`rawLog.Source.Host["name"].(string)` in `ExtractServiceName` panics
instead of degrading silently, and the panic propagates out of
`processRawLog`, aborting the run. -/
theorem extract_service_name_panics :
    Preprocessor.ExtractServiceName Inputs.hostlessDoc =
      Preprocessor.ExtractOut.panicked ∧
    Preprocessor.ExtractServiceName Inputs.numHostDoc =
      Preprocessor.ExtractOut.panicked ∧
    Preprocessor.processRawLog Inputs.hostlessDoc =
      Preprocessor.ProcOut.panicked :=
  ⟨rfl, rfl, by decide⟩

/-- Claim C7 (the code): an otherwise-valid record whose level is `"err"`
(respectively `"warning"`) is dropped — `validateParsedLog` accepts only
`error`, `warn`, `info`, `debug` and stores the level unnormalized — even
though `NormalizeLogLevel`, which maps `err` to `error` and `warning` to
`warn`, exists in the preprocessor package; it is never invoked on this
path. -/
theorem err_level_record_dropped :
    Preprocessor.processRawLog Inputs.errLevelDoc =
      Preprocessor.ProcOut.err "invalid log level" ∧
    Preprocessor.processRawLog Inputs.warningLevelDoc =
      Preprocessor.ProcOut.err "invalid log level" ∧
    Preprocessor.NormalizeLogLevel "err" = "error" ∧
    Preprocessor.NormalizeLogLevel "warning" = "warn" :=
  ⟨by decide, by decide, by decide, by decide⟩

/-- Counterexample for C10: for the valid service name `api-3times` and
count 7, the count extractor finds the digit run inside the service name
first and returns `"3"`, not `"7"` — the claimed round trip fails. -/
theorem count_extraction_not_roundtrip :
    Preprocessor.isValidServiceName "api-3times" = true ∧
    Reporter.extractCountFromReason (Pipeline.formatReason "api-3times" 7) =
      "3" ∧
    Pipeline.natToDecimal 7 = "7" ∧ ("3" : String) ≠ "7" :=
  ⟨by decide, by decide, by decide, by decide⟩

/-! ### Lemmas for the count-extractor round trip -/

theorem takeWhile_of_all {p : Char → Bool} {l : List Char}
    (h : ∀ x ∈ l, p x = true) : l.takeWhile p = l := by
  have hd : l.dropWhile p = [] := List.dropWhile_eq_nil_iff.mpr h
  have := List.takeWhile_append_dropWhile p l
  rw [hd, List.append_nil] at this
  exact this

theorem tryCount_cons_not_digit {c : Char} (l : List Char)
    (h : c.isDigit = false) : Reporter.tryCount (c :: l) = none := by
  simp [Reporter.tryCount, h]

theorem findCount_append_nondigit (A B : List Char)
    (h : ∀ c ∈ A, c.isDigit = false) :
    Reporter.findCount (A ++ B) = Reporter.findCount B := by
  induction A with
  | nil => rfl
  | cons a A' ih =>
      have ha : a.isDigit = false := h a (List.mem_cons_self _ _)
      show Reporter.findCount (a :: (A' ++ B)) = _
      rw [Reporter.findCount, tryCount_cons_not_digit _ ha]
      exact ih (fun c hc => h c (List.mem_cons_of_mem _ hc))

theorem serviceChar_not_space {c : Char}
    (h : Reporter.isServiceChar c = true) : isGoSpace c = false := by
  by_contra hsp
  rw [Bool.not_eq_false] at hsp
  simp only [isGoSpace, Bool.or_eq_true, decide_eq_true_eq] at hsp
  rcases hsp with ((((h1 | h1) | h1) | h1) | h1) <;> subst h1 <;>
    exact absurd h (by decide)

theorem dropWhile_head_not {p : Char → Bool} {l : List Char} {b : Char}
    {u : List Char} (h : l.dropWhile p = b :: u) : p b = false := by
  induction l with
  | nil => simp [List.dropWhile] at h
  | cons x xs ih =>
      rw [List.dropWhile_cons] at h
      by_cases hx : p x
      · rw [if_pos hx] at h
        exact ih h
      · rw [if_neg hx] at h
        injection h with h1 h2
        subst h1
        simpa using hx

theorem digitChar_isDigit :
    ∀ d, d < 10 → (Char.ofNat (48 + d)).isDigit = true := by
  decide

theorem natDigitsRev_all_digits :
    ∀ (fuel n : Nat), ∀ ch ∈ Pipeline.natDigitsRev fuel n,
      ch.isDigit = true := by
  intro fuel
  induction fuel with
  | zero =>
      intro n ch hch
      simp [Pipeline.natDigitsRev] at hch
  | succ f ih =>
      intro n ch hch
      simp only [Pipeline.natDigitsRev] at hch
      by_cases hn : n < 10
      · rw [if_pos hn] at hch
        simp at hch
        subst hch
        exact digitChar_isDigit n hn
      · rw [if_neg hn] at hch
        rcases List.mem_cons.mp hch with hch | hch
        · subst hch
          exact digitChar_isDigit (n % 10) (Nat.mod_lt _ (by norm_num))
        · exact ih (n / 10) ch hch

theorem natToDecimal_data_digits (n : Nat) :
    ∀ ch ∈ (Pipeline.natToDecimal n).data, ch.isDigit = true := by
  intro ch hch
  have hdata : (Pipeline.natToDecimal n).data =
      (Pipeline.natDigitsRev (n + 1) n).reverse := rfl
  rw [hdata, List.mem_reverse] at hch
  exact natDigitsRev_all_digits (n + 1) n ch hch

theorem natToDecimal_data_ne_nil (n : Nat) :
    (Pipeline.natToDecimal n).data ≠ [] := by
  have hdata : (Pipeline.natToDecimal n).data =
      (Pipeline.natDigitsRev (n + 1) n).reverse := rfl
  rw [hdata]
  simp only [ne_eq, List.reverse_eq_nil_iff]
  simp only [Pipeline.natDigitsRev]
  by_cases hn : n < 10 <;> simp [hn]

theorem times_prefix_within (xs R' : List Char)
    (h : "times".data.isPrefixOf (xs ++ (' ' :: R')) = true) :
    "times".data.isPrefixOf xs = true := by
  have ht5 : "times".data = ['t', 'i', 'm', 'e', 's'] := rfl
  rw [ht5] at h ⊢
  rcases xs with _ | ⟨a, _ | ⟨b, _ | ⟨c, _ | ⟨d, _ | ⟨e, xs'⟩⟩⟩⟩⟩ <;>
    simp only [List.nil_append, List.cons_append, List.isPrefixOf,
      Bool.and_eq_true] at h ⊢
  · exact absurd h.1 (by decide)
  · exact absurd h.2.1 (by decide)
  · exact absurd h.2.2.1 (by decide)
  · exact absurd h.2.2.2.1 (by decide)
  · exact absurd h.2.2.2.2.1 (by decide)
  · exact ⟨h.1, h.2.1, h.2.2.1, h.2.2.2.1, h.2.2.2.2.1, trivial⟩

theorem findCount_skip_service (t Y : List Char)
    (hall : ∀ ch ∈ t, Reporter.isServiceChar ch = true)
    (hdt : Reporter.hasDigitTimes t = false) :
    Reporter.findCount (t ++ (" 中發生了 ".data ++ Y)) =
      Reporter.findCount (" 中發生了 ".data ++ Y) := by
  have hP2 : " 中發生了 ".data = ' ' :: '中' :: '發' :: '生' :: '了' :: [' '] :=
    rfl
  induction t with
  | nil => rfl
  | cons c t' ih =>
      have hcs : Reporter.isServiceChar c = true :=
        hall c (List.mem_cons_self _ _)
      have hall' : ∀ ch ∈ t', Reporter.isServiceChar ch = true :=
        fun ch h => hall ch (List.mem_cons_of_mem _ h)
      have hdtc : Reporter.hasDigitTimes (c :: t') = false := hdt
      have hdt' : Reporter.hasDigitTimes t' = false := by
        rw [Reporter.hasDigitTimes, Bool.or_eq_false_iff] at hdtc
        exact hdtc.2
      have htc : Reporter.tryCount
          (c :: (t' ++ (" 中發生了 ".data ++ Y))) = none := by
        by_cases hd : c.isDigit
        · rw [Reporter.tryCount, if_pos hd]
          rcases hu : t'.dropWhile Char.isDigit with _ | ⟨b, u'⟩
          · -- every remaining service character is a digit: the run ends
            -- right before the literal tail, whose first non-space
            -- character is 中, matching neither 次 nor times
            have hap : (c :: (t' ++ (" 中發生了 ".data ++ Y))).dropWhile
                Char.isDigit = " 中發生了 ".data ++ Y := by
              rw [List.dropWhile_cons, if_pos hd, List.dropWhile_append, hu,
                if_pos (by rfl)]
              rw [hP2, List.cons_append, List.dropWhile_cons,
                if_neg (by decide), ← List.cons_append, ← hP2]
            have hrest : (" 中發生了 ".data ++ Y).dropWhile isGoSpace =
                '中' :: (['發', '生', '了', ' '] ++ Y) := by
              rw [hP2, List.cons_append, List.dropWhile_cons,
                if_pos (by decide), List.cons_append, List.dropWhile_cons,
                if_neg (by decide)]
            rw [hap, hrest]
            rfl
          · -- the digit run ends inside the service name at b
            have hb_mem : b ∈ t' :=
              (List.dropWhile_sublist Char.isDigit).subset
                (hu ▸ List.mem_cons_self _ _)
            have hbs : Reporter.isServiceChar b = true := hall' b hb_mem
            have hap : (c :: (t' ++ (" 中發生了 ".data ++ Y))).dropWhile
                Char.isDigit = b :: (u' ++ (" 中發生了 ".data ++ Y)) := by
              rw [List.dropWhile_cons, if_pos hd, List.dropWhile_append, hu,
                if_neg (by simp), List.cons_append]
            have hbsp : isGoSpace b = false := serviceChar_not_space hbs
            have hsp : (b :: (u' ++ (" 中發生了 ".data ++ Y))).dropWhile
                isGoSpace = b :: (u' ++ (" 中發生了 ".data ++ Y)) := by
              rw [List.dropWhile_cons, if_neg (by simp [hbsp])]
            have hni : "次".data.isPrefixOf
                (b :: (u' ++ (" 中發生了 ".data ++ Y))) = false := by
              have hbne : (('次' : Char) == b) = false := by
                by_cases hbe : b = '次'
                · subst hbe
                  exact absurd hbs (by decide)
                · simp [Ne.symm hbe]
              simp [List.isPrefixOf, show "次".data = ['次'] from rfl, hbne]
            have hti : "times".data.isPrefixOf
                (b :: (u' ++ (" 中發生了 ".data ++ Y))) = false := by
              by_contra hcon
              rw [Bool.not_eq_false] at hcon
              rw [hP2] at hcon
              have hcon2 : "times".data.isPrefixOf
                  ((b :: u') ++ (' ' :: (['中', '發', '生', '了', ' '] ++
                    Y))) = true := by
                simpa [List.cons_append, List.append_assoc] using hcon
              have hwithin := times_prefix_within (b :: u') _ hcon2
              have habs : Reporter.hasDigitTimes (c :: t') = true := by
                rw [Reporter.hasDigitTimes, hu, hd, hwithin]
                simp
              rw [habs] at hdtc
              exact absurd hdtc (by simp)
            rw [hap, hsp]
            simp only [hni, hti]
            rfl
        · exact tryCount_cons_not_digit _ (by simpa using hd)
      show Reporter.findCount (c :: (t' ++ _)) = _
      rw [Reporter.findCount, htc]
      exact ih hall' hdt'

theorem findCount_decimal_tail (c : Nat) :
    Reporter.findCount ((Pipeline.natToDecimal c).data ++ [' ', '次']) =
      some (Pipeline.natToDecimal c).data := by
  have hdig := natToDecimal_data_digits c
  rcases hD : (Pipeline.natToDecimal c).data with _ | ⟨d, D'⟩
  · exact absurd hD (natToDecimal_data_ne_nil c)
  · have hd : d.isDigit = true := hdig d (by rw [hD]; exact List.mem_cons_self _ _)
    have hD' : ∀ ch ∈ D', ch.isDigit = true :=
      fun ch h => hdig ch (by rw [hD]; exact List.mem_cons_of_mem _ h)
    have htw : (d :: (D' ++ [' ', '次'])).takeWhile Char.isDigit =
        d :: D' := by
      rw [List.takeWhile_cons, if_pos hd, List.takeWhile_append]
      rw [takeWhile_of_all hD']
      simp [List.takeWhile]
    have hdw : (d :: (D' ++ [' ', '次'])).dropWhile Char.isDigit =
        [' ', '次'] := by
      rw [List.dropWhile_cons, if_pos hd, List.dropWhile_append,
        List.dropWhile_eq_nil_iff.mpr hD']
      simp [List.dropWhile]
    show Reporter.findCount (d :: (D' ++ [' ', '次'])) = some (d :: D')
    have htc : Reporter.tryCount (d :: (D' ++ [' ', '次'])) =
        some (d :: D') := by
      rw [Reporter.tryCount, if_pos hd, htw, hdw]
      simp [List.isPrefixOf, List.dropWhile, isGoSpace,
        show "次".data = ['次'] from rfl]
    rw [Reporter.findCount, htc]

/-- Claim C10 (amended): for every count `c` and every service name over the
cleaned alphabet `[a-z0-9-]` in which no digit run is immediately followed
by the literal `times`, extracting the count from the formatted reason
returns exactly the decimal rendering of `c`.  (The counterexample
`api-3times` shows the exclusion is necessary.) -/
theorem count_extraction_roundtrip (c : Nat) (s : String)
    (hall : ∀ ch ∈ s.data, Reporter.isServiceChar ch = true)
    (hdt : Reporter.hasDigitTimes s.data = false) :
    Reporter.extractCountFromReason (Pipeline.formatReason s c) =
      Pipeline.natToDecimal c := by
  unfold Reporter.extractCountFromReason Pipeline.formatReason
  rw [String.data_append, String.data_append, String.data_append,
    String.data_append]
  rw [List.append_assoc, List.append_assoc, List.append_assoc]
  rw [findCount_append_nondigit "錯誤在服務 ".data _ (by decide)]
  rw [show " 中發生了 ".data ++ ((Pipeline.natToDecimal c).data ++
      " 次".data) = " 中發生了 ".data ++ ((Pipeline.natToDecimal c).data ++
      [' ', '次']) from rfl]
  rw [findCount_skip_service s.data _ hall hdt]
  rw [findCount_append_nondigit " 中發生了 ".data _ (by decide)]
  rw [findCount_decimal_tail c]

/-- Witness for C10 (amended): the round trip on count 7 and service
`svc-a`. -/
theorem count_extraction_roundtrip_witness :
    Reporter.extractCountFromReason (Pipeline.formatReason "svc-a" 7) =
      Pipeline.natToDecimal 7 :=
  count_extraction_roundtrip 7 "svc-a" (by decide) (by decide)

end LogAnalyzer
